import Mathlib

/-!
Verification development for the EC read path of the blobstore access layer
(file access/stream_get.go).  The Go source is shallowly embedded: machine
integers become Nat (the relevant arithmetic never overflows on the modelled
inputs and the source guards rule the overflow cases out), byte slices become
List Nat, Go maps become association lists with replace-on-insert, fallible
functions return Except, and external collaborators (the blobnode transport,
the volume resolver, the service controller, the EC encoder, math/rand) are
injected as function parameters, exactly as they are injected interfaces in
the source.  Concurrency in readOneBlob is modelled by quantifying over the
order in which launched shard reads complete.
-/

set_option autoImplicit false

namespace Blobstore

/-- Semantic model of minU64 from stream_get.go. -/
def minU64 (a b : Nat) : Nat := if a < b then a else b

/-- One run of consecutive blob ids inside a Location (api/access Blob slice). -/
structure SliceInfo where
  MinBid : Nat
  Vid : Nat
  Count : Nat
deriving DecidableEq, Repr

/-- Caller-provided location of a stored object (api/access Location);
only the fields read by stream_get.go are modelled. -/
structure Location where
  ClusterID : Nat
  Size : Nat
  BlobSize : Nat
  Blobs : List SliceInfo
deriving DecidableEq, Repr

/-- Per-blob read arguments produced by genLocationBlobs (struct blobGetArgs). -/
structure blobGetArgs where
  Vid : Nat
  Bid : Nat
  BlobSize : Nat
  Offset : Nat
  ReadSize : Nat
deriving DecidableEq, Repr

/-- Inner loop of genLocationBlobs over one run of blob ids
(the loop on ii over blob.Count).  The left summand is the early
return blobs, nil taken when remainSize reaches zero; the right summand
is the state (idx, blobOffset, remainSize, acc) passed to the next run. -/
def genRunLoop (vid blobSize locSize firstBlobIdx : Nat) :
    Nat → Nat → Nat → Nat → Nat → List blobGetArgs →
    (List blobGetArgs) ⊕ (Nat × Nat × Nat × List blobGetArgs)
  | 0, _, idx, off, rem, acc => Sum.inr (idx, off, rem, acc)
  | count + 1, currBid, idx, off, rem, acc =>
    if rem = 0 then Sum.inl acc
    else if firstBlobIdx ≤ idx then
      let toRead := minU64 rem (blobSize - off)
      let acc2 := if 0 < toRead then
          acc ++ [⟨vid, currBid, minU64 (locSize - idx * blobSize) blobSize, off, toRead⟩]
        else acc
      genRunLoop vid blobSize locSize firstBlobIdx count (currBid + 1) (idx + 1) 0 (rem - toRead) acc2
    else
      genRunLoop vid blobSize locSize firstBlobIdx count (currBid + 1) (idx + 1) off rem acc

/-- Outer loop of genLocationBlobs over the runs of the location. -/
def genRuns (blobSize locSize firstBlobIdx : Nat) :
    List SliceInfo → Nat × Nat × Nat × List blobGetArgs →
    (List blobGetArgs) ⊕ (Nat × Nat × Nat × List blobGetArgs)
  | [], st => Sum.inr st
  | run :: rest, (idx, off, rem, acc) =>
    match genRunLoop run.Vid blobSize locSize firstBlobIdx run.Count run.MinBid idx off rem acc with
    | Sum.inl blobs => Sum.inl blobs
    | Sum.inr st => genRuns blobSize locSize firstBlobIdx rest st

/-- Model of genLocationBlobs from stream_get.go: validates the range and the
blob size, then cuts the byte range [offset, offset+readSize) into per-blob
read arguments. -/
def genLocationBlobs (location : Location) (readSize offset : Nat) :
    Except String (List blobGetArgs) :=
  if location.Size < offset + readSize then
    Except.error "FileSize less than ReadSize plus Offset"
  else
    let blobSize := location.BlobSize
    if blobSize = 0 then Except.error "BlobSize is zero"
    else
      let firstBlobIdx := offset / blobSize
      let blobOffset := offset % blobSize
      match genRuns blobSize location.Size firstBlobIdx location.Blobs
          (0, blobOffset, readSize, []) with
      | Sum.inl blobs => Except.ok blobs
      | Sum.inr (_, _, rem, blobs) =>
        if 0 < rem then Except.error "no enough data to read" else Except.ok blobs

/-- The (vid, bid) of the blob at a global blob index of a location: walk the
runs, consuming Count entries per run. -/
def blobIdAt : List SliceInfo → Nat → Option (Nat × Nat)
  | [], _ => none
  | run :: rest, idx =>
    if idx < run.Count then some (run.Vid, run.MinBid + idx)
    else blobIdAt rest (idx - run.Count)

/-- Total number of blobs of a location, the sum of the run counts. -/
def totalBlobCount (runs : List SliceInfo) : Nat :=
  (runs.map (fun r => r.Count)).sum

/-- The runs of a location flattened to the per-blob list of (vid, bid). -/
def flatRuns (runs : List SliceInfo) : List (Nat × Nat) :=
  runs.flatMap (fun run => (List.range' run.MinBid run.Count).map (fun b => (run.Vid, b)))

/-- The two nested loops of genLocationBlobs re-expressed as one loop over
the flattened blob list; proved equal to genRuns below and used to reason
about it. -/
def flatLoop (blobSize locSize firstBlobIdx : Nat) :
    List (Nat × Nat) → Nat → Nat → Nat → List blobGetArgs →
    (List blobGetArgs) ⊕ (Nat × Nat × Nat × List blobGetArgs)
  | [], idx, off, rem, acc => Sum.inr (idx, off, rem, acc)
  | (vid, bid) :: rest, idx, off, rem, acc =>
    if rem = 0 then Sum.inl acc
    else if firstBlobIdx ≤ idx then
      let toRead := minU64 rem (blobSize - off)
      let acc2 := if 0 < toRead then
          acc ++ [⟨vid, bid, minU64 (locSize - idx * blobSize) blobSize, off, toRead⟩]
        else acc
      flatLoop blobSize locSize firstBlobIdx rest (idx + 1) 0 (rem - toRead) acc2
    else
      flatLoop blobSize locSize firstBlobIdx rest (idx + 1) off rem acc

/-- The blob list and the remaining byte count of a loop result; the early
return carries remainder zero. -/
def loopOut : (List blobGetArgs) ⊕ (Nat × Nat × Nat × List blobGetArgs) →
    List blobGetArgs × Nat
  | Sum.inl blobs => (blobs, 0)
  | Sum.inr (_, _, rem, blobs) => (blobs, rem)

/-- Modelled from the spec: the ordered BlobRefs covering the byte range, per
spec sections 3 and 4.8 — blob k (at global index idx) carries the blob id of
that index, blob size min(location.blob_size, total_size − idx·blob_size),
the intra-blob offset (offset mod blob_size for the first blob, zero after),
and just enough read size to finish covering read_size. -/
def specBlobsFrom (runs : List SliceInfo) (blobSize locSize : Nat) :
    Nat → Nat → Nat → Nat → List blobGetArgs
  | 0, _, _, _ => []
  | fuel + 1, idx, off, rem =>
    if rem = 0 then []
    else
      match blobIdAt runs idx with
      | none => []
      | some (vid, bid) =>
        let toRead := minU64 rem (blobSize - off)
        ⟨vid, bid, minU64 (locSize - idx * blobSize) blobSize, off, toRead⟩ ::
          specBlobsFrom runs blobSize locSize fuel (idx + 1) 0 (rem - toRead)

/-- Modelled from the spec: genLocationBlobs as the spec words it (sections
4.8 steps 1-2 and 3) — validate offset + read_size against total_size and
blob_size against zero, fail when the runs cannot cover the requested range,
and otherwise emit the covering BlobRefs starting at global blob index
offset / blob_size. -/
def genLocationBlobsSpec (location : Location) (readSize offset : Nat) :
    Except String (List blobGetArgs) :=
  if location.Size < offset + readSize then
    Except.error "FileSize less than ReadSize plus Offset"
  else if location.BlobSize = 0 then Except.error "BlobSize is zero"
  else if 0 < readSize ∧
      totalBlobCount location.Blobs * location.BlobSize < offset + readSize then
    Except.error "no enough data to read"
  else
    Except.ok (specBlobsFrom location.Blobs location.BlobSize location.Size
      (totalBlobCount location.Blobs - offset / location.BlobSize)
      (offset / location.BlobSize) (offset % location.BlobSize) readSize)

/-- Host and IDC information returned by the service controller for a disk
(controller.HostIDC). -/
structure HostIDC where
  Host : String
  IDC : String
  Punished : Bool
deriving DecidableEq, Repr

/-- One volume unit as stored in the cached volume entry (controller.Unit);
only the fields read by stream_get.go are modelled. -/
structure CtrlUnit where
  Vuid : Nat
  DiskID : Nat
  Host : String
deriving DecidableEq, Repr

/-- One entry of the sorted read order (struct sortedVuid). -/
structure sortedVuid where
  index : Nat
  vuid : Nat
  diskID : Nat
  host : String
deriving DecidableEq, Repr

/-- Model of distance from stream_get.go. -/
def distance (idc1 idc2 : String) (punished : Bool) : Nat :=
  if punished then
    if idc1 = idc2 then 2 else 3
  else
    if idc1 = idc2 then 0 else 1

/-- The group of resolvable units whose disks sit at a given distance, in unit
index order, exactly the list sortMap[dis] built by genSortedVuidByIDC: the Go
loop appends to the group in increasing index order, skipping units whose disk
host cannot be resolved.  The service-controller lookup (with its internal
retry) is injected as getDiskHost. -/
def sortGroup (getDiskHost : Nat → Option HostIDC) (idc : String)
    (vuidPhys : List CtrlUnit) (dis : Nat) : List sortedVuid :=
  vuidPhys.enum.filterMap (fun p =>
    match getDiskHost p.2.DiskID with
    | none => none
    | some hi =>
      if distance idc hi.IDC hi.Punished = dis then
        some ⟨p.1, p.2.Vuid, p.2.DiskID, p.2.Host⟩
      else none)

/-- Model of genSortedVuidByIDC from stream_get.go: units are grouped by
distance, each group is shuffled (math/rand is injected as the shuffle
parameter), and the groups are concatenated in ascending distance.  The Go
code iterates over the sorted keys of its group map; since distance only
takes values 0..3 and absent keys contribute nothing, this equals walking
distances 0,1,2,3 in order and skipping empty groups. -/
def genSortedVuidByIDC (getDiskHost : Nat → Option HostIDC)
    (shuffle : Nat → List sortedVuid → List sortedVuid)
    (idc : String) (vuidPhys : List CtrlUnit) : List sortedVuid :=
  ((List.range 4).map (fun dis =>
    let ids := sortGroup getDiskHost idc vuidPhys dis
    if ids.isEmpty then [] else shuffle dis ids)).flatten

/-- Shard and data geometry for one blob (ec.BufferSizes); the encoder module
computing it from blob size and tactic is outside this repository, so the
sizes are taken as input where the source calls ec.GetBufferSizes. -/
structure BufferSizes where
  ShardSize : Nat
  DataSize : Nat
  ECDataSize : Nat
deriving DecidableEq, Repr

/-- Model of emptyDataShardIndexes from stream_get.go, as the ascending list
of the indexes the Go function puts into its map-set. -/
def emptyDataShardIndexes (sizes : BufferSizes) : List Nat :=
  let firstEmptyIdx := (sizes.DataSize + sizes.ShardSize - 1) / sizes.ShardSize
  let n := sizes.ECDataSize / sizes.ShardSize
  if n ≤ firstEmptyIdx then []
  else List.range' firstEmptyIdx (n - firstEmptyIdx)

/-- Outcome of one shard read (struct shardData).  A byte buffer is a
List Nat. -/
structure shardData where
  index : Nat
  status : Bool
  buffer : List Nat
deriving DecidableEq, Repr

/-- Externally determined fate of one shard fetch inside readOneShard: the
transport call fails (or is canceled), the pool allocation fails, or the
transport returns a body stream with the given bytes. -/
inductive ShardFetchOutcome where
  | transportErr
  | canceled
  | allocFail
  | body (bytes : List Nat)
deriving DecidableEq, Repr

/-- Model of readOneShard from stream_get.go.  Returns the shardData sent on
the channel together with the numbers of pool buffers acquired and returned
inside the call.  A buffer is allocated only once the transport has returned
a body; io.ReadFull fails exactly when the body holds fewer than shardSize
bytes, in which case the buffer is put back before the failure is reported. -/
def readOneShardM (shardSize index : Nat) :
    ShardFetchOutcome → shardData × Nat × Nat
  | ShardFetchOutcome.transportErr => (⟨index, false, []⟩, 0, 0)
  | ShardFetchOutcome.canceled => (⟨index, false, []⟩, 0, 0)
  | ShardFetchOutcome.allocFail => (⟨index, false, []⟩, 0, 0)
  | ShardFetchOutcome.body b =>
    if b.length < shardSize then (⟨index, false, []⟩, 1, 1)
    else (⟨index, true, b.take shardSize⟩, 1, 0)

/-- Go map from shard index to reception status, modelled as an association
list whose insert replaces any previous binding of the key. -/
abbrev RecvMap := List (Nat × Bool)

/-- Map insertion with replacement (received[k] = v). -/
def recvInsert (m : RecvMap) (k : Nat) (v : Bool) : RecvMap :=
  (k, v) :: m.filter (fun p => p.1 ≠ k)

/-- Lookup returning the stored status together with presence, as the Go
two-valued map read succ, ok := received[i]. -/
def recvGet (m : RecvMap) (i : Nat) : Option Bool :=
  (m.find? (fun p => p.1 == i)).map (fun p => p.2)

/-- Whether index i was received with success, the Go condition
not (!ok or !succ). -/
def recvGood (m : RecvMap) (i : Nat) : Bool :=
  (recvGet m i).getD false

/-- Number of entries of the map holding a failed status, the Go loop
counting !succ over range received. -/
def recvBadCount (m : RecvMap) : Nat :=
  m.countP (fun p => !p.2)

/-- State of the main reception loop of readOneBlob. -/
structure BlobLoopSt where
  shards : List (List Nat)
  recv : RecvMap
  reconCalls : Nat
  puts : Nat
deriving Repr

/-- How the main loop of readOneBlob breaks out: with all data shards present
or a successful reconstruction (success), or by giving the blob up (broken).
Every break is preceded by close(stopChan). -/
inductive StepExit where
  | success
  | broken
deriving DecidableEq, Repr

/-- One iteration of the reception loop of readOneBlob (the for shard := range
shardPipe body): swap a successful buffer into the shard matrix and return the
old buffer to the pool, record the outcome, and once at least dataN outcomes
are in, decide between finishing, giving up, reconstructing, or asking for one
more shard (nextChan).  The EC encoder is injected as recon; a recon result of
none is ReconstructData returning an error. -/
def readStep (recon : List (List Nat) → List Nat → Option (List (List Nat)))
    (dataN dataParityN numVuids : Nat) (st : BlobLoopSt) (sd : shardData) :
    BlobLoopSt × Option StepExit :=
  let st1 :=
    if sd.status then
      { st with shards := st.shards.set sd.index sd.buffer, puts := st.puts + 1 }
    else st
  let recv := recvInsert st1.recv sd.index sd.status
  let st2 := { st1 with recv := recv }
  if recv.length < dataN then (st2, none)
  else
    let badIdx := (List.range dataN).filter (fun i => !(recvGood recv i))
    if badIdx.isEmpty then (st2, some StepExit.success)
    else
      let badAll := badIdx ++
        (List.range' dataN (dataParityN - dataN)).filter (fun i => !(recvGood recv i))
      let badShards := recvBadCount recv
      if dataParityN - dataN < badShards then (st2, some StepExit.broken)
      else if dataN + badShards ≤ recv.length then
        match recon st2.shards badAll with
        | some newShards =>
          ({ st2 with shards := newShards, reconCalls := st2.reconCalls + 1 },
            some StepExit.success)
        | none =>
          let st3 := { st2 with reconCalls := st2.reconCalls + 1 }
          if numVuids ≤ recv.length then (st3, some StepExit.broken) else (st3, none)
      else if numVuids ≤ recv.length then (st2, some StepExit.broken)
      else (st2, none)

/-- The reception loop of readOneBlob run over the arrival order of the shard
reads.  Returns the final state, how the loop broke out (none when the channel
was exhausted without a break, in which case stopChan is never closed), and
the arrivals left for the background drain goroutine. -/
def readLoop (recon : List (List Nat) → List Nat → Option (List (List Nat)))
    (dataN dataParityN numVuids : Nat) :
    BlobLoopSt → List shardData → BlobLoopSt × Option StepExit × List shardData
  | st, [] => (st, none, [])
  | st, sd :: rest =>
    match readStep recon dataN dataParityN numVuids st sd with
    | (st2, some e) => (st2, some e, rest)
    | (st2, none) => readLoop recon dataN dataParityN numVuids st2 rest

/-- Zero-fill of the pooled buffer at index i (h.memPool.Zero(shards[idx])). -/
def zeroAt (sh : List (List Nat)) (i : Nat) : List (List Nat) :=
  sh.set i (List.replicate (sh.getD i []).length 0)

/-- Errors surfaced by the modelled read path. -/
inductive GetErr where
  | illegalArgument
  | brokenBlob (cluster vid bid : Nat)
  | needReconstruct
  | noEnoughData
  | writeFailed
deriving DecidableEq, Repr

/-- Observable result of one readOneBlob call, with the instrumentation the
claims talk about: whether stopChan was closed, how often ReconstructData ran,
how many pool buffers the shard readers acquired and how many buffers were
returned inside the call (swaps, failed body reads, and the drain goroutine),
and which unit indexes were actually asked for their shard. -/
structure ReadBlobOut where
  result : Except GetErr (List (List Nat))
  stopClosed : Bool
  reconCalls : Nat
  allocs : Nat
  puts : Nat
  requested : List Nat
deriving Repr

/-- The units of the read order that the launcher goroutine actually reads:
every unit whose index is not an empty data index (the two launch loops of
shardPipe skip empty indexes). -/
def launchedVuids (sizes : BufferSizes) (order : List sortedVuid) : List sortedVuid :=
  order.filter (fun v => !((emptyDataShardIndexes sizes).contains v.index))

/-- The shard-reader results for the launched units, each paired with its
buffer alloc and put counts. -/
def blobFetched (sizes : BufferSizes) (shards0 : List (List Nat))
    (fetch : Nat → ShardFetchOutcome) (order : List sortedVuid) :
    List (shardData × Nat × Nat) :=
  (launchedVuids sizes order).map
    (fun v => readOneShardM (shards0.headD []).length v.index (fetch v.index))

/-- Initial loop state of readOneBlob: every empty data index is marked
received and its pooled buffer zero-filled before the loop starts. -/
def blobInitSt (sizes : BufferSizes) (shards0 : List (List Nat)) : BlobLoopSt :=
  ⟨(emptyDataShardIndexes sizes).foldl (fun sh i => zeroAt sh i) shards0,
    (emptyDataShardIndexes sizes).foldl (fun m i => recvInsert m i true) [], 0, 0⟩

/-- Model of readOneBlob from stream_get.go.  The launcher goroutine is
modelled by its observable effect: every unit of the read order whose index is
not an empty data index is fetched (fetch gives the per-unit transport fate),
and the results reach the reception loop in the order of the order parameter —
quantifying theorems over order covers every interleaving the goroutines can
produce, including schedules where escalation through nextChan launched every
unit.  Empty data indexes are zero-filled and marked received up front without
any request.  After the loop, the drain goroutine returns the buffers of
late-arriving successful shards to the pool. -/
def readOneBlobM (recon : List (List Nat) → List Nat → Option (List (List Nat)))
    (clusterID : Nat) (blob : blobGetArgs) (dataN dataParityN numVuids : Nat)
    (sizes : BufferSizes) (shards0 : List (List Nat))
    (fetch : Nat → ShardFetchOutcome) (order : List sortedVuid) : ReadBlobOut :=
  let fetched := blobFetched sizes shards0 fetch order
  let arrivals := fetched.map (fun r => r.1)
  let shardAllocs := (fetched.map (fun r => r.2.1)).sum
  let shardPuts := (fetched.map (fun r => r.2.2)).sum
  match readLoop recon dataN dataParityN numVuids (blobInitSt sizes shards0) arrivals with
  | (st, exitKind, rest) =>
    let drainPuts := (rest.filter (fun sd => sd.status)).length
    { result :=
        match exitKind with
        | some StepExit.success => Except.ok st.shards
        | _ => Except.error (GetErr.brokenBlob clusterID blob.Vid blob.Bid)
      stopClosed := exitKind.isSome
      reconCalls := st.reconCalls
      allocs := shardAllocs
      puts := shardPuts + st.puts + drainPuts
      requested := (launchedVuids sizes order).map (fun v => v.index) }

/-- The copy loop of Get that writes one blob to the caller (the for
toReadSize > 0 loop): skip whole shards while the intra-blob offset exceeds
them, then emit slices until readSize bytes are out.  Returns the bytes
handed to the writer. -/
def writeShardsLoop (shards : List (List Nat)) (off toRead : Nat) : List Nat :=
  match shards with
  | [] => []
  | buf :: rest =>
    if toRead = 0 then []
    else if buf.length ≤ off then writeShardsLoop rest (off - buf.length) toRead
    else
      let t := minU64 toRead (buf.length - off)
      ((buf.drop off).take t) ++ writeShardsLoop rest 0 (toRead - t)

/-- Classified error kinds of the blobnode transport, as detected by
rpc.DetectStatusCode in getOneShardFromHost.  The timeout kind stands for the
errors recognized by errorTimeout; the rpc layer classifies an error as
exactly one of these. -/
inductive ErrCode where
  | overload
  | diskBroken
  | vuidReadonly
  | diskNotFound
  | vuidNotFound
  | timeout
  | other
deriving DecidableEq, Repr

/-- Result of one RangeGetShard transport call. -/
inductive TransportResult where
  | ok (body : List Nat)
  | err (code : ErrCode)
deriving DecidableEq, Repr

/-- The mutable (host, diskID, vuid) target getOneShardFromHost retries on. -/
structure ShardTarget where
  host : String
  diskID : Nat
  vuid : Nat
deriving DecidableEq, Repr

/-- External collaborators of getOneShardFromHost.  The transport and the
forced volume lookup are indexed by call number so that time-varying external
state (each retry may see a different answer) is expressible; getDiskHost maps
a disk id to its host info; cancel says whether the stop signal is observed
closed at a given retry iteration. -/
structure ShardHostEnv where
  transport : Nat → ShardTarget → TransportResult
  getVolumeNoCache : Nat → Option (List CtrlUnit)
  getDiskHost : Nat → Option HostIDC
  cancel : Nat → Bool

/-- Instrumentation counters of one getOneShardFromHost call: transport
attempts made, forced volume refreshes (h.getVolume with cache disallowed),
full disk punishments, and threshold punishments. -/
structure ShardHostStats where
  attempts : Nat
  refreshes : Nat
  punishFull : Nat
  punishThresh : Nat
deriving DecidableEq, Repr

/-- Value getOneShardFromHost resolves to. -/
inductive ShardHostResult where
  | ok (body : List Nat)
  | canceledErr
  | errFinal (code : ErrCode)
  | punishedErr (diskID : Nat) (host : String)
deriving DecidableEq, Repr

/-- One attempt of the retry loop of getOneShardFromHost (the closure passed
to retry RuptOn): check the cancel signal, call the transport, and classify
the error.  Overload, DiskBroken, VuidReadonly and timeouts interrupt the
retry (first component true); DiskNotFound and VuidNotFound force a volume
refresh and, when the refreshed unit maps to a different unpunished disk,
retarget the next attempt; otherwise the disk is threshold punished and the
attempt just retries. -/
def shardAttempt (env : ShardHostEnv) (index : Nat) (hasCancel : Bool)
    (it : Nat) (tgt : ShardTarget) (st : ShardHostStats) :
    Bool × ShardHostResult × ShardTarget × ShardHostStats × Option TransportResult :=
  if hasCancel && env.cancel it then
    (true, ShardHostResult.canceledErr, tgt, st, none)
  else
    match env.transport st.attempts tgt with
    | TransportResult.ok body =>
      (true, ShardHostResult.ok body, tgt,
        { st with attempts := st.attempts + 1 }, some (TransportResult.ok body))
    | TransportResult.err code =>
      let st1 := { st with attempts := st.attempts + 1 }
      let tr := some (TransportResult.err code)
      match code with
      | ErrCode.overload => (true, ShardHostResult.errFinal code, tgt, st1, tr)
      | ErrCode.diskBroken =>
        (true, ShardHostResult.punishedErr tgt.diskID tgt.host, tgt,
          { st1 with punishFull := st1.punishFull + 1 }, tr)
      | ErrCode.vuidReadonly =>
        (true, ShardHostResult.punishedErr tgt.diskID tgt.host, tgt,
          { st1 with punishFull := st1.punishFull + 1 }, tr)
      | ErrCode.diskNotFound =>
        let st2 := { st1 with refreshes := st1.refreshes + 1 }
        match env.getVolumeNoCache st1.refreshes with
        | none => (false, ShardHostResult.errFinal code, tgt, st2, tr)
        | some units =>
          let newUnit := units.getD index ⟨0, 0, ""⟩
          if newUnit.DiskID ≠ tgt.diskID then
            match env.getDiskHost newUnit.DiskID with
            | some hi =>
              if hi.Punished then
                (false, ShardHostResult.errFinal code, tgt,
                  { st2 with punishThresh := st2.punishThresh + 1 }, tr)
              else
                (false, ShardHostResult.errFinal code,
                  ⟨hi.Host, newUnit.DiskID, newUnit.Vuid⟩, st2, tr)
            | none =>
              (false, ShardHostResult.errFinal code, tgt,
                { st2 with punishThresh := st2.punishThresh + 1 }, tr)
          else
            (false, ShardHostResult.errFinal code, tgt,
              { st2 with punishThresh := st2.punishThresh + 1 }, tr)
      | ErrCode.vuidNotFound =>
        let st2 := { st1 with refreshes := st1.refreshes + 1 }
        match env.getVolumeNoCache st1.refreshes with
        | none => (false, ShardHostResult.errFinal code, tgt, st2, tr)
        | some units =>
          let newUnit := units.getD index ⟨0, 0, ""⟩
          if newUnit.DiskID ≠ tgt.diskID then
            match env.getDiskHost newUnit.DiskID with
            | some hi =>
              if hi.Punished then
                (false, ShardHostResult.errFinal code, tgt,
                  { st2 with punishThresh := st2.punishThresh + 1 }, tr)
              else
                (false, ShardHostResult.errFinal code,
                  ⟨hi.Host, newUnit.DiskID, newUnit.Vuid⟩, st2, tr)
            | none =>
              (false, ShardHostResult.errFinal code, tgt,
                { st2 with punishThresh := st2.punishThresh + 1 }, tr)
          else
            (false, ShardHostResult.errFinal code, tgt,
              { st2 with punishThresh := st2.punishThresh + 1 }, tr)
      | ErrCode.timeout =>
        (true, ShardHostResult.errFinal code, tgt,
          { st1 with punishThresh := st1.punishThresh + 1 }, tr)
      | ErrCode.other => (false, ShardHostResult.errFinal code, tgt, st1, tr)

/-- Modelled from the spec: the retry combinator retry.ExponentialBackoff(3,
200).RuptOn of util/retry, which is not part of the sources at hand.  The
spec fixes its contract: at most 3 attempts with exponential backoff between
them, stopping as soon as an attempt succeeds or interrupts.  Backoff
sleeping has no functional effect and is not modelled.  The trace collects
the transport results of the executed attempts. -/
def shardRetryLoop (env : ShardHostEnv) (index : Nat) (hasCancel : Bool) :
    Nat → Nat → ShardTarget → ShardHostStats → List TransportResult →
    ShardHostResult × ShardHostStats × List TransportResult
  | 0, _, _, st, tr => (ShardHostResult.errFinal ErrCode.other, st, tr)
  | fuel + 1, it, tgt, st, tr =>
    match shardAttempt env index hasCancel it tgt st with
    | (stop, res, tgt2, st2, trEntry) =>
      let tr2 := tr ++ trEntry.toList
      if stop then (res, st2, tr2)
      else if fuel = 0 then (res, st2, tr2)
      else shardRetryLoop env index hasCancel fuel (it + 1) tgt2 st2 tr2

/-- Model of getOneShardFromHost from stream_get.go: the attempt body embedded
above, run under the 3-attempt retry policy. -/
def getOneShardFromHostM (env : ShardHostEnv) (index : Nat) (hasCancel : Bool)
    (tgt : ShardTarget) : ShardHostResult × ShardHostStats × List TransportResult :=
  shardRetryLoop env index hasCancel 3 0 tgt ⟨0, 0, 0, 0⟩ []

/-- Result of the data-shard-only reader together with the unit indexes it
contacted, in order. -/
structure DSOOut where
  result : Except GetErr (List Nat)
  contacted : List Nat
deriving Repr

/-- The sequential fetch loop of getDataShardOnly over the data units
Units[firstShardIdx:N].  fetch i off size is the transport answer for unit i
(none is any transport error); a body shorter than the requested size is the
io.ReadFull failure.  Both failures surface errNeedReconstructRead; running
out of units with bytes still to read is the distinct no-enough-data error. -/
def dsoLoop (fetch : Nat → Nat → Nat → Option (List Nat)) (shardSize : Nat) :
    List Nat → Nat → Nat → List Nat → List Nat → DSOOut
  | [], _, remain, acc, c =>
    if 0 < remain then ⟨Except.error GetErr.noEnoughData, c⟩ else ⟨Except.ok acc, c⟩
  | i :: rest, so, remain, acc, c =>
    if remain = 0 then ⟨Except.ok acc, c⟩
    else
      let toRead := minU64 remain (shardSize - so)
      match fetch i so toRead with
      | none => ⟨Except.error GetErr.needReconstruct, c ++ [i]⟩
      | some body =>
        if body.length < toRead then ⟨Except.error GetErr.needReconstruct, c ++ [i]⟩
        else dsoLoop fetch shardSize rest 0 (remain - toRead) (acc ++ body.take toRead) (c ++ [i])

/-- Model of getDataShardOnly from stream_get.go: for a single blob, read just
enough data shards starting at floor(offset / shardSize) to cover readSize
bytes, never touching parity units. -/
def getDataShardOnlyM (fetch : Nat → Nat → Nat → Option (List Nat))
    (dataN shardSize : Nat) (blob : blobGetArgs) : DSOOut :=
  if blob.ReadSize = 0 then ⟨Except.ok [], []⟩
  else
    let firstShardIdx := blob.Offset / shardSize
    let shardOffset := blob.Offset % shardSize
    dsoLoop fetch shardSize (List.range' firstShardIdx (dataN - firstShardIdx))
      shardOffset blob.ReadSize [] []

/-- The fast-path guard of Get (stream_get.go lines deciding to call
getDataShardOnly): exactly one blob, and the blob fits a single shard or the
read is smaller than a quarter of the blob. -/
def fastPathTriggered (blobs : List blobGetArgs) (shardSize : Nat) : Bool :=
  match blobs with
  | [blob] => decide (blob.BlobSize ≤ shardSize) || decide (blob.ReadSize < blob.BlobSize / 4)
  | _ => false

/-- The fast-path dispatch of Get: when the guard holds the data-shard-only
result is returned unless it is errNeedReconstructRead, in which case Get
falls through to the general path; flags tell which readers ran. -/
def getReadPath (blobs : List blobGetArgs) (shardSize : Nat)
    (fast : Except GetErr (List Nat)) (general : Except GetErr (List Nat)) :
    Except GetErr (List Nat) × Bool × Bool :=
  if fastPathTriggered blobs shardSize then
    match fast with
    | Except.error GetErr.needReconstruct => (general, true, true)
    | r => (r, true, false)
  else (general, false, true)

/-- The argument-checking prologue of Get: genLocationBlobs failure surfaces
as ErrIllegalArguments, an empty blob list returns nil immediately (writing
nothing); none means Get proceeds to the transfer function. -/
def getEarly (location : Location) (readSize offset : Nat) :
    Option (Except GetErr Unit) :=
  match genLocationBlobs location readSize offset with
  | Except.error _ => some (Except.error GetErr.illegalArgument)
  | Except.ok blobs => if blobs.isEmpty then some (Except.ok ()) else none

/-- The guard of the Get pipeline after sorting the vuids: fewer than N
resolvable units fail the blob at once with the broken-blob error, before any
shard is read. -/
def pipelineVuidsCheck (clusterID : Nat) (blob : blobGetArgs)
    (sortedVuids : List sortedVuid) (dataN : Nat) :
    Except GetErr (List sortedVuid) :=
  if sortedVuids.length < dataN then
    Except.error (GetErr.brokenBlob clusterID blob.Vid blob.Bid)
  else Except.ok sortedVuids

/-- Result and pool ledger of one whole Get execution. -/
structure GetLedgerOut where
  result : Except GetErr Unit
  allocs : Nat
  puts : Nat
deriving Repr

/-- Buffers accounted by the producer goroutine after the consumer has closed
closeCh: it keeps processing blobs until its select observes the closed
channel.  A blob whose readOneBlob fails has its buffers returned (and the
producer exits); a blob whose readOneBlob succeeds reaches the select, where
the producer returns without releasing the freshly filled N+M shard buffers.
The ahead parameter is the number of such completed-but-undelivered blobs the
schedule allows (the channel capacity bounds it in the real program).  Returns
the pair of buffer allocations and returns performed. -/
def producerAheadLedger (recon : List (List Nat) → List Nat → Option (List (List Nat)))
    (clusterID dataN dataParityN numVuids : Nat) (sizes : BufferSizes)
    (shards0 : List (List Nat)) :
    Nat → List (blobGetArgs × (Nat → ShardFetchOutcome) × List sortedVuid) → Nat × Nat
  | 0, _ => (0, 0)
  | _, [] => (0, 0)
  | ahead + 1, (blob, fetch, order) :: rest =>
    let out := readOneBlobM recon clusterID blob dataN dataParityN numVuids sizes shards0 fetch order
    match out.result with
    | Except.error _ => (dataParityN + out.allocs, out.puts + dataParityN)
    | Except.ok _ =>
      let (la, lp) := producerAheadLedger recon clusterID dataN dataParityN numVuids sizes shards0 ahead rest
      (dataParityN + out.allocs + la, out.puts + lp)

/-- Pool ledger of the Get pipeline (producer goroutine plus consumer copy
loop) over a sequence of blobs.  For each blob the producer allocates the N+M
shard buffers and runs readOneBlob; on failure it returns them and the Get
fails; on success the consumer writes the blob and returns the N+M buffers.
writerFailIdx makes the caller writer fail on the given blob, upon which the
consumer closes closeCh and the producer may be up to ahead completed blobs
in flight (see producerAheadLedger). -/
def getPipelineLedger (recon : List (List Nat) → List Nat → Option (List (List Nat)))
    (clusterID dataN dataParityN numVuids : Nat) (sizes : BufferSizes)
    (shards0 : List (List Nat)) (writerFailIdx : Option Nat) (ahead : Nat) :
    List (blobGetArgs × (Nat → ShardFetchOutcome) × List sortedVuid) → Nat → GetLedgerOut
  | [], _ => ⟨Except.ok (), 0, 0⟩
  | (blob, fetch, order) :: rest, k =>
    let out := readOneBlobM recon clusterID blob dataN dataParityN numVuids sizes shards0 fetch order
    match out.result with
    | Except.error e => ⟨Except.error e, dataParityN + out.allocs, out.puts + dataParityN⟩
    | Except.ok _ =>
      if writerFailIdx = some k then
        let (la, lp) := producerAheadLedger recon clusterID dataN dataParityN numVuids sizes shards0 ahead rest
        ⟨Except.error GetErr.writeFailed, dataParityN + out.allocs + la,
          out.puts + dataParityN + lp⟩
      else
        let r := getPipelineLedger recon clusterID dataN dataParityN numVuids sizes shards0
          writerFailIdx ahead rest (k + 1)
        ⟨r.result, dataParityN + out.allocs + r.allocs, out.puts + dataParityN + r.puts⟩

/-- Whether a transport result is one of the identity-mismatch errors
(DiskNotFound, VuidNotFound) that force a volume refresh. -/
def isNotFoundErr : TransportResult → Bool
  | TransportResult.err ErrCode.diskNotFound => true
  | TransportResult.err ErrCode.vuidNotFound => true
  | _ => false

/-! Facts about the association-list model of the Go received map. -/

theorem find?_filter_ne_key {k i : Nat} (h : k ≠ i) :
    ∀ m : RecvMap,
      (m.filter (fun p => p.1 ≠ k)).find? (fun p => p.1 == i) =
        m.find? (fun p => p.1 == i)
  | [] => rfl
  | (a, b) :: rest => by
    by_cases hak : a = k
    · have hai : (((a, b) : Nat × Bool).1 == i) = false := by
        simp only [beq_eq_false_iff_ne, ne_eq]
        intro hc; exact h (by rw [← hak, hc])
      rw [List.filter_cons, List.find?_cons]
      rw [if_neg (by simp [hak])]
      rw [find?_filter_ne_key h rest]
      simp only [hai]
    · rw [List.filter_cons]
      rw [if_pos (by simp [hak])]
      rw [List.find?_cons, List.find?_cons]
      cases hx : (((a, b) : Nat × Bool).1 == i) with
      | true => simp only [hx]
      | false => simp only [hx]; exact find?_filter_ne_key h rest

theorem recvGet_insert (m : RecvMap) (k i : Nat) (v : Bool) :
    recvGet (recvInsert m k v) i = if k = i then some v else recvGet m i := by
  by_cases hki : k = i
  · subst hki
    simp [recvGet, recvInsert, List.find?_cons]
  · simp only [recvGet, recvInsert, List.find?_cons]
    have : ((k, v).1 == i) = false := by simpa using hki
    simp only [this, if_neg hki]
    rw [find?_filter_ne_key hki m]

theorem recvGood_insert (m : RecvMap) (k i : Nat) (v : Bool) :
    recvGood (recvInsert m k v) i = if k = i then v else recvGood m i := by
  simp only [recvGood, recvGet_insert]
  by_cases hki : k = i <;> simp [hki]

theorem recvGood_foldl_true (l : List Nat) :
    ∀ (m : RecvMap) (i : Nat),
      recvGood (l.foldl (fun m j => recvInsert m j true) m) i =
        if i ∈ l then true else recvGood m i := by
  induction l with
  | nil => intro m i; simp
  | cons x xs ih =>
    intro m i
    simp only [List.foldl_cons, ih, List.mem_cons]
    by_cases hixs : i ∈ xs
    · simp [hixs]
    · by_cases hix : i = x
      · subst hix
        simp [hixs, recvGood_insert]
      · have hor : ¬(i = x ∨ i ∈ xs) := by tauto
        have hne : x ≠ i := fun h => hix h.symm
        rw [if_neg hixs, if_neg hor, recvGood_insert, if_neg hne]

/-! Facts about zero-filling the shard matrix. -/

theorem zeroAt_getD_ne (sh : List (List Nat)) {j i : Nat} (h : j ≠ i) :
    (zeroAt sh j).getD i [] = sh.getD i [] := by
  simp only [zeroAt, List.getD_eq_getElem?_getD, List.getElem?_set_ne h]

theorem zeroAt_getD_self (sh : List (List Nat)) (j : Nat) :
    (zeroAt sh j).getD j [] = List.replicate ((sh.getD j []).length) 0 := by
  by_cases hlen : j < sh.length
  · simp only [zeroAt, List.getD_eq_getElem?_getD, List.getElem?_set_self hlen,
      Option.getD_some]
  · have hle : sh.length ≤ j := Nat.le_of_not_lt hlen
    have hset : sh.set j (List.replicate (sh.getD j []).length 0) = sh := by
      apply List.set_eq_of_length_le hle
    simp only [zeroAt, hset]
    have : sh[j]? = none := List.getElem?_eq_none hle
    simp [List.getD_eq_getElem?_getD, this]

theorem zeroAt_getD_length (sh : List (List Nat)) (j i : Nat) :
    ((zeroAt sh j).getD i []).length = (sh.getD i []).length := by
  by_cases hji : j = i
  · subst hji; rw [zeroAt_getD_self]; simp
  · rw [zeroAt_getD_ne sh hji]

theorem getD_foldl_zeroAt_not_mem (l : List Nat) :
    ∀ (sh : List (List Nat)) (i : Nat), i ∉ l →
      (l.foldl zeroAt sh).getD i [] = sh.getD i [] := by
  induction l with
  | nil => intro sh i _; rfl
  | cons x xs ih =>
    intro sh i hi
    simp only [List.mem_cons, not_or] at hi
    simp only [List.foldl_cons]
    rw [ih (zeroAt sh x) i hi.2, zeroAt_getD_ne sh (fun h => hi.1 h.symm)]

theorem getD_foldl_zeroAt (l : List Nat) :
    ∀ (sh : List (List Nat)) (i : Nat), i ∈ l →
      (l.foldl zeroAt sh).getD i [] = List.replicate ((sh.getD i []).length) 0 := by
  induction l with
  | nil => intro sh i hi; cases hi
  | cons x xs ih =>
    intro sh i hi
    simp only [List.foldl_cons]
    by_cases hixs : i ∈ xs
    · rw [ih (zeroAt sh x) i hixs, zeroAt_getD_length]
    · have hix : i = x := by
        rcases List.mem_cons.mp hi with h | h
        · exact h
        · exact absurd h hixs
      subst hix
      rw [getD_foldl_zeroAt_not_mem xs (zeroAt sh i) i hixs, zeroAt_getD_self]

/-! The reception loop never disturbs an index it did not receive: if every
arrival carries an index outside E and the encoder only rewrites the bad
indexes it is given, then the reception state keeps E received-good and keeps
the shard bytes at E unchanged. -/

theorem readStep_empties_inv
    (recon : List (List Nat) → List Nat → Option (List (List Nat)))
    (hrecon : ∀ sh bad out, recon sh bad = some out →
      ∀ j, j ∉ bad → out.getD j [] = sh.getD j [])
    (dataN dataParityN numVuids : Nat)
    (E : List Nat) (Z : Nat → List Nat) (st : BlobLoopSt) (sd : shardData)
    (hsd : sd.index ∉ E)
    (hinv : ∀ i ∈ E, recvGood st.recv i = true ∧ st.shards.getD i [] = Z i) :
    ∀ i ∈ E,
      recvGood (readStep recon dataN dataParityN numVuids st sd).1.recv i = true ∧
      (readStep recon dataN dataParityN numVuids st sd).1.shards.getD i [] = Z i := by
  intro i hi
  have hne : sd.index ≠ i := fun h => hsd (h ▸ hi)
  have hrecv : ∀ (b : Bool), recvGood (recvInsert st.recv sd.index b) i = true := by
    intro b
    rw [recvGood_insert, if_neg hne]
    exact (hinv i hi).1
  have hsh1 : ∀ (b : List Nat), (st.shards.set sd.index b).getD i [] = Z i := by
    intro b
    rw [List.getD_eq_getElem?_getD, List.getElem?_set_ne hne,
      ← List.getD_eq_getElem?_getD]
    exact (hinv i hi).2
  have hnotbad : ∀ (m : RecvMap), recvGood m i = true →
      i ∉ ((List.range dataN).filter (fun j => !(recvGood m j)) ++
        (List.range' dataN (dataParityN - dataN)).filter (fun j => !(recvGood m j))) := by
    intro m hm hmem
    rcases List.mem_append.mp hmem with hmem | hmem
    · have := (List.mem_filter.mp hmem).2
      rw [hm] at this
      exact absurd this (by simp)
    · have := (List.mem_filter.mp hmem).2
      rw [hm] at this
      exact absurd this (by simp)
  unfold readStep
  cases hstatus : sd.status with
  | false =>
    simp only [hstatus, if_false, Bool.false_eq_true]
    split
    · exact ⟨hrecv false, (hinv i hi).2⟩
    · split
      · exact ⟨hrecv false, (hinv i hi).2⟩
      · split
        · exact ⟨hrecv false, (hinv i hi).2⟩
        · split
          · split
            · rename_i newShards hrec
              refine ⟨hrecv false, ?_⟩
              rw [hrecon _ _ _ hrec i (hnotbad _ (hrecv false))]
              exact (hinv i hi).2
            · split
              · exact ⟨hrecv false, (hinv i hi).2⟩
              · exact ⟨hrecv false, (hinv i hi).2⟩
          · split
            · exact ⟨hrecv false, (hinv i hi).2⟩
            · exact ⟨hrecv false, (hinv i hi).2⟩
  | true =>
    simp only [hstatus, if_true]
    split
    · exact ⟨hrecv true, hsh1 _⟩
    · split
      · exact ⟨hrecv true, hsh1 _⟩
      · split
        · exact ⟨hrecv true, hsh1 _⟩
        · split
          · split
            · rename_i newShards hrec
              refine ⟨hrecv true, ?_⟩
              rw [hrecon _ _ _ hrec i (hnotbad _ (hrecv true))]
              exact hsh1 _
            · split
              · exact ⟨hrecv true, hsh1 _⟩
              · exact ⟨hrecv true, hsh1 _⟩
          · split
            · exact ⟨hrecv true, hsh1 _⟩
            · exact ⟨hrecv true, hsh1 _⟩

theorem readLoop_empties_inv
    (recon : List (List Nat) → List Nat → Option (List (List Nat)))
    (hrecon : ∀ sh bad out, recon sh bad = some out →
      ∀ j, j ∉ bad → out.getD j [] = sh.getD j [])
    (dataN dataParityN numVuids : Nat) (E : List Nat) (Z : Nat → List Nat) :
    ∀ (arr : List shardData) (st : BlobLoopSt),
      (∀ sd ∈ arr, sd.index ∉ E) →
      (∀ i ∈ E, recvGood st.recv i = true ∧ st.shards.getD i [] = Z i) →
      ∀ i ∈ E,
        (readLoop recon dataN dataParityN numVuids st arr).1.shards.getD i [] = Z i := by
  intro arr
  induction arr with
  | nil =>
    intro st _ hinv i hi
    exact (hinv i hi).2
  | cons sd rest ih =>
    intro st harr hinv i hi
    have hstep := readStep_empties_inv recon hrecon dataN dataParityN numVuids E Z st sd
      (harr sd (List.mem_cons_self _ _)) hinv
    simp only [readLoop]
    rcases hs : readStep recon dataN dataParityN numVuids st sd with ⟨st2, e⟩
    rw [hs] at hstep
    cases e with
    | some ex =>
      simp only []
      exact (hstep i hi).2
    | none =>
      simp only []
      exact ih st2 (fun x hx => harr x (List.mem_cons_of_mem _ hx)) hstep i hi

theorem readOneShardM_index (shardSize index : Nat) (oc : ShardFetchOutcome) :
    (readOneShardM shardSize index oc).1.index = index := by
  cases oc with
  | transportErr => rfl
  | canceled => rfl
  | allocFail => rfl
  | body b =>
    by_cases h : b.length < shardSize <;> simp [readOneShardM, h]

theorem mem_emptyDataShardIndexes (sizes : BufferSizes) (i : Nat) :
    i ∈ emptyDataShardIndexes sizes ↔
      ((sizes.DataSize + sizes.ShardSize - 1) / sizes.ShardSize ≤ i ∧
        i < sizes.ECDataSize / sizes.ShardSize) := by
  simp only [emptyDataShardIndexes]
  split
  · rename_i h
    simp only [List.not_mem_nil, false_iff, not_and, not_lt]
    omega
  · rename_i h
    rw [List.mem_range'_1]
    omega

/-! Projection lemmas reducing readOneBlobM to the reception loop. -/

theorem readOneBlobM_result
    (recon : List (List Nat) → List Nat → Option (List (List Nat)))
    (clusterID : Nat) (blob : blobGetArgs) (dataN dataParityN numVuids : Nat)
    (sizes : BufferSizes) (shards0 : List (List Nat))
    (fetch : Nat → ShardFetchOutcome) (order : List sortedVuid) :
    (readOneBlobM recon clusterID blob dataN dataParityN numVuids sizes shards0
      fetch order).result =
      (match (readLoop recon dataN dataParityN numVuids (blobInitSt sizes shards0)
          ((blobFetched sizes shards0 fetch order).map (fun r => r.1))).2.1 with
        | some StepExit.success =>
          Except.ok (readLoop recon dataN dataParityN numVuids (blobInitSt sizes shards0)
            ((blobFetched sizes shards0 fetch order).map (fun r => r.1))).1.shards
        | _ => Except.error (GetErr.brokenBlob clusterID blob.Vid blob.Bid)) := by
  unfold readOneBlobM
  rcases readLoop recon dataN dataParityN numVuids (blobInitSt sizes shards0)
    ((blobFetched sizes shards0 fetch order).map (fun r => r.1)) with ⟨st, ek, rest⟩
  rfl

theorem readOneBlobM_requested
    (recon : List (List Nat) → List Nat → Option (List (List Nat)))
    (clusterID : Nat) (blob : blobGetArgs) (dataN dataParityN numVuids : Nat)
    (sizes : BufferSizes) (shards0 : List (List Nat))
    (fetch : Nat → ShardFetchOutcome) (order : List sortedVuid) :
    (readOneBlobM recon clusterID blob dataN dataParityN numVuids sizes shards0
      fetch order).requested = (launchedVuids sizes order).map (fun v => v.index) := by
  unfold readOneBlobM
  rcases readLoop recon dataN dataParityN numVuids (blobInitSt sizes shards0)
    ((blobFetched sizes shards0 fetch order).map (fun r => r.1)) with ⟨st, ek, rest⟩
  rfl

theorem readOneBlobM_reconCalls
    (recon : List (List Nat) → List Nat → Option (List (List Nat)))
    (clusterID : Nat) (blob : blobGetArgs) (dataN dataParityN numVuids : Nat)
    (sizes : BufferSizes) (shards0 : List (List Nat))
    (fetch : Nat → ShardFetchOutcome) (order : List sortedVuid) :
    (readOneBlobM recon clusterID blob dataN dataParityN numVuids sizes shards0
      fetch order).reconCalls =
      (readLoop recon dataN dataParityN numVuids (blobInitSt sizes shards0)
        ((blobFetched sizes shards0 fetch order).map (fun r => r.1))).1.reconCalls := by
  unfold readOneBlobM
  rcases readLoop recon dataN dataParityN numVuids (blobInitSt sizes shards0)
    ((blobFetched sizes shards0 fetch order).map (fun r => r.1)) with ⟨st, ek, rest⟩
  rfl

theorem readOneBlobM_stopClosed
    (recon : List (List Nat) → List Nat → Option (List (List Nat)))
    (clusterID : Nat) (blob : blobGetArgs) (dataN dataParityN numVuids : Nat)
    (sizes : BufferSizes) (shards0 : List (List Nat))
    (fetch : Nat → ShardFetchOutcome) (order : List sortedVuid) :
    (readOneBlobM recon clusterID blob dataN dataParityN numVuids sizes shards0
      fetch order).stopClosed =
      (readLoop recon dataN dataParityN numVuids (blobInitSt sizes shards0)
        ((blobFetched sizes shards0 fetch order).map (fun r => r.1))).2.1.isSome := by
  unfold readOneBlobM
  rcases readLoop recon dataN dataParityN numVuids (blobInitSt sizes shards0)
    ((blobFetched sizes shards0 fetch order).map (fun r => r.1)) with ⟨st, ek, rest⟩
  rfl

theorem readOneBlobM_allocs
    (recon : List (List Nat) → List Nat → Option (List (List Nat)))
    (clusterID : Nat) (blob : blobGetArgs) (dataN dataParityN numVuids : Nat)
    (sizes : BufferSizes) (shards0 : List (List Nat))
    (fetch : Nat → ShardFetchOutcome) (order : List sortedVuid) :
    (readOneBlobM recon clusterID blob dataN dataParityN numVuids sizes shards0
      fetch order).allocs =
      ((blobFetched sizes shards0 fetch order).map (fun r => r.2.1)).sum := by
  unfold readOneBlobM
  rcases readLoop recon dataN dataParityN numVuids (blobInitSt sizes shards0)
    ((blobFetched sizes shards0 fetch order).map (fun r => r.1)) with ⟨st, ek, rest⟩
  rfl

theorem readOneBlobM_puts
    (recon : List (List Nat) → List Nat → Option (List (List Nat)))
    (clusterID : Nat) (blob : blobGetArgs) (dataN dataParityN numVuids : Nat)
    (sizes : BufferSizes) (shards0 : List (List Nat))
    (fetch : Nat → ShardFetchOutcome) (order : List sortedVuid) :
    (readOneBlobM recon clusterID blob dataN dataParityN numVuids sizes shards0
      fetch order).puts =
      ((blobFetched sizes shards0 fetch order).map (fun r => r.2.2)).sum +
        (readLoop recon dataN dataParityN numVuids (blobInitSt sizes shards0)
          ((blobFetched sizes shards0 fetch order).map (fun r => r.1))).1.puts +
        ((readLoop recon dataN dataParityN numVuids (blobInitSt sizes shards0)
          ((blobFetched sizes shards0 fetch order).map (fun r => r.1))).2.2.filter
            (fun sd => sd.status)).length := by
  unfold readOneBlobM
  rcases readLoop recon dataN dataParityN numVuids (blobInitSt sizes shards0)
    ((blobFetched sizes shards0 fetch order).map (fun r => r.1)) with ⟨st, ek, rest⟩
  rfl

theorem launchedVuids_index_not_empty (sizes : BufferSizes) (order : List sortedVuid)
    (v : sortedVuid) (hv : v ∈ launchedVuids sizes order) :
    v.index ∉ emptyDataShardIndexes sizes := by
  have h := (List.mem_filter.mp hv).2
  intro hmem
  rw [Bool.not_eq_eq_eq_not, Bool.not_true] at h
  exact absurd (List.elem_iff.mpr hmem) (by simpa using h)

/-- C7: the computed set of empty data shard indexes is exactly the interval
from the ceiling of DataSize / ShardSize up to n − 1 (n the number of data
shards, ECDataSize / ShardSize); readOneBlob issues no request for any such
index, and on success the shard matrix at every such index is exactly zero
(the zero-filled pooled buffer of unchanged length). -/
theorem C7_empty_data_shard_indexes
    (sizes : BufferSizes) (dataN : Nat)
    (hss : 0 < sizes.ShardSize) (hecd : sizes.ECDataSize = dataN * sizes.ShardSize)
    (recon : List (List Nat) → List Nat → Option (List (List Nat)))
    (hrecon : ∀ sh bad out, recon sh bad = some out →
      ∀ j, j ∉ bad → out.getD j [] = sh.getD j [])
    (clusterID : Nat) (blob : blobGetArgs) (dataParityN numVuids : Nat)
    (shards0 : List (List Nat)) (fetch : Nat → ShardFetchOutcome)
    (order : List sortedVuid) :
    (∀ i, i ∈ emptyDataShardIndexes sizes ↔
      (sizes.DataSize ⌈/⌉ sizes.ShardSize ≤ i ∧ i < dataN)) ∧
    (∀ i ∈ emptyDataShardIndexes sizes,
      i ∉ (readOneBlobM recon clusterID blob dataN dataParityN numVuids sizes
        shards0 fetch order).requested) ∧
    (∀ sh, (readOneBlobM recon clusterID blob dataN dataParityN numVuids sizes
        shards0 fetch order).result = Except.ok sh →
      ∀ i ∈ emptyDataShardIndexes sizes,
        sh.getD i [] = List.replicate ((shards0.getD i []).length) 0) := by
  have hn : sizes.ECDataSize / sizes.ShardSize = dataN := by
    rw [hecd, Nat.mul_div_cancel _ hss]
  refine ⟨?_, ?_, ?_⟩
  · intro i
    rw [mem_emptyDataShardIndexes, Nat.ceilDiv_eq_add_pred_div, hn]
  · intro i hi hmem
    rw [readOneBlobM_requested] at hmem
    rcases List.mem_map.mp hmem with ⟨v, hv, hvi⟩
    exact launchedVuids_index_not_empty sizes order v hv (hvi ▸ hi)
  · intro sh hres i hi
    have hloop := readLoop_empties_inv recon hrecon dataN dataParityN numVuids
      (emptyDataShardIndexes sizes)
      (fun j => List.replicate ((shards0.getD j []).length) 0)
      ((blobFetched sizes shards0 fetch order).map (fun r => r.1))
      (blobInitSt sizes shards0)
      (by
        intro sd hsd
        rcases List.mem_map.mp hsd with ⟨r, hr, hrsd⟩
        rcases List.mem_map.mp hr with ⟨v, hv, hvr⟩
        have : sd.index = v.index := by
          rw [← hrsd, ← hvr, readOneShardM_index]
        rw [this]
        exact launchedVuids_index_not_empty sizes order v hv)
      (by
        intro j hj
        constructor
        · show recvGood ((emptyDataShardIndexes sizes).foldl
            (fun m i => recvInsert m i true) []) j = true
          rw [recvGood_foldl_true, if_pos hj]
        · show ((emptyDataShardIndexes sizes).foldl (fun sh i => zeroAt sh i)
            shards0).getD j [] = _
          exact getD_foldl_zeroAt _ shards0 j hj)
      i hi
    rw [readOneBlobM_result] at hres
    rcases hl : readLoop recon dataN dataParityN numVuids (blobInitSt sizes shards0)
      ((blobFetched sizes shards0 fetch order).map (fun r => r.1)) with ⟨st, ek, rest⟩
    rw [hl] at hres hloop
    dsimp only at hres hloop
    cases ek with
    | none => exact absurd hres (by simp)
    | some ex =>
      cases ex with
      | broken => exact absurd hres (by simp)
      | success =>
        have hsh : st.shards = sh := by
          simpa using hres
        rw [← hsh]
        exact hloop

/-- Witness for C7 at a concrete geometry: sizes ⟨ShardSize 2, DataSize 1,
ECDataSize 4⟩ with two data shards make index 1 empty, and readOneBlob never
requests it. -/
theorem C7_empty_data_shard_indexes_witness :
    (1 : Nat) ∉ (readOneBlobM (fun s _ => some s) 1 ⟨3, 8, 1, 0, 1⟩ 2 3 3 ⟨2, 1, 4⟩
      [[9, 9], [9, 9], [9, 9]] (fun _ => ShardFetchOutcome.body [5, 5])
      [⟨0, 0, 0, ""⟩, ⟨1, 1, 1, ""⟩, ⟨2, 2, 2, ""⟩]).requested :=
  (C7_empty_data_shard_indexes ⟨2, 1, 4⟩ 2 (by decide) (by decide)
    (fun s _ => some s)
    (fun sh bad out h j hj => by rw [← Option.some.inj h])
    1 ⟨3, 8, 1, 0, 1⟩ 3 3 [[9, 9], [9, 9], [9, 9]]
    (fun _ => ShardFetchOutcome.body [5, 5])
    [⟨0, 0, 0, ""⟩, ⟨1, 1, 1, ""⟩, ⟨2, 2, 2, ""⟩]).2.1 1 (by decide)

/-- C10: readOneShard never holds a pool buffer when it reports a failed
outcome — alloc and put counts agree on every failure; no buffer at all is
acquired unless the transport returned a body; and a success carries a buffer
of exactly shardSize bytes filled from the front of the body. -/
theorem C10_readOneShard_buffer_discipline (shardSize index : Nat)
    (oc : ShardFetchOutcome) :
    ((readOneShardM shardSize index oc).1.status = false →
      (readOneShardM shardSize index oc).2.1 = (readOneShardM shardSize index oc).2.2) ∧
    ((∀ b, oc ≠ ShardFetchOutcome.body b) →
      (readOneShardM shardSize index oc).2.1 = 0) ∧
    ((readOneShardM shardSize index oc).1.status = true →
      ∃ b, oc = ShardFetchOutcome.body b ∧ shardSize ≤ b.length ∧
        (readOneShardM shardSize index oc).1.buffer = b.take shardSize ∧
        ((readOneShardM shardSize index oc).1.buffer).length = shardSize) := by
  cases oc with
  | transportErr => exact ⟨fun _ => rfl, fun _ => rfl, fun h => by cases h⟩
  | canceled => exact ⟨fun _ => rfl, fun _ => rfl, fun h => by cases h⟩
  | allocFail => exact ⟨fun _ => rfl, fun _ => rfl, fun h => by cases h⟩
  | body b =>
    by_cases h : b.length < shardSize
    · refine ⟨fun _ => by simp [readOneShardM, h], ?_, ?_⟩
      · intro hb; exact absurd rfl (hb b)
      · intro hs
        simp [readOneShardM, h] at hs
    · refine ⟨?_, ?_, ?_⟩
      · intro hs
        simp [readOneShardM, h] at hs
      · intro hb; exact absurd rfl (hb b)
      · intro _
        refine ⟨b, rfl, Nat.le_of_not_lt h, ?_, ?_⟩
        · simp [readOneShardM, h]
        · simp [readOneShardM, h]
          omega

/-- Witness for C10: a failed transport holds no buffer, and a successful read
of a 3-byte body with shardSize 2 returns the 2-byte prefix. -/
theorem C10_readOneShard_buffer_discipline_witness :
    ((readOneShardM 2 0 ShardFetchOutcome.transportErr).2.1 =
      (readOneShardM 2 0 ShardFetchOutcome.transportErr).2.2) ∧
    ∃ b, ShardFetchOutcome.body [1, 2, 3] = ShardFetchOutcome.body b ∧ 2 ≤ b.length ∧
      (readOneShardM 2 0 (ShardFetchOutcome.body [1, 2, 3])).1.buffer = b.take 2 ∧
      ((readOneShardM 2 0 (ShardFetchOutcome.body [1, 2, 3])).1.buffer).length = 2 :=
  ⟨(C10_readOneShard_buffer_discipline 2 0 ShardFetchOutcome.transportErr).1 (by rfl),
    (C10_readOneShard_buffer_discipline 2 0 (ShardFetchOutcome.body [1, 2, 3])).2.2 (by rfl)⟩

/-- An attempt that did not interrupt the retry loop cannot have failed with a
short-circuiting error kind (Overload, DiskBroken, VuidReadonly, timeout). -/
theorem shardAttempt_not_stop_not_shortCircuit (env : ShardHostEnv) (index : Nat)
    (hasCancel : Bool) (it : Nat) (tgt : ShardTarget) (st : ShardHostStats)
    (res : ShardHostResult) (tgt2 : ShardTarget) (st2 : ShardHostStats)
    (code : ErrCode)
    (ha : shardAttempt env index hasCancel it tgt st =
      (false, res, tgt2, st2, some (TransportResult.err code))) :
    ¬(code = ErrCode.overload ∨ code = ErrCode.diskBroken ∨
      code = ErrCode.vuidReadonly ∨ code = ErrCode.timeout) := by
  intro hsc
  unfold shardAttempt at ha
  split at ha
  · simp at ha
  · split at ha
    case h_1 => simp at ha
    case h_2 =>
      rename_i code2 heq
      cases code2 <;> dsimp only at ha
      case overload => simp at ha
      case diskBroken => simp at ha
      case vuidReadonly => simp at ha
      case timeout => simp at ha
      case other => rcases hsc with rfl | rfl | rfl | rfl <;> simp_all
      case diskNotFound =>
        rcases hsc with rfl | rfl | rfl | rfl <;>
          (rcases hv : env.getVolumeNoCache st.refreshes with _ | units <;>
            rw [hv] at ha <;> repeat' split at ha) <;> simp_all
      case vuidNotFound =>
        rcases hsc with rfl | rfl | rfl | rfl <;>
          (rcases hv : env.getVolumeNoCache st.refreshes with _ | units <;>
            rw [hv] at ha <;> repeat' split at ha) <;> simp_all

/-- The retry loop extends the trace by at most fuel entries, and any executed
attempt that failed with a short-circuiting kind is the last one. -/
theorem shardRetryLoop_trace_delta (env : ShardHostEnv) (index : Nat)
    (hasCancel : Bool) :
    ∀ (fuel it : Nat) (tgt : ShardTarget) (st : ShardHostStats)
      (tr : List TransportResult),
      ∃ delta,
        (shardRetryLoop env index hasCancel fuel it tgt st tr).2.2 = tr ++ delta ∧
        delta.length ≤ fuel ∧
        (∀ k code, delta.get? k = some (TransportResult.err code) →
          (code = ErrCode.overload ∨ code = ErrCode.diskBroken ∨
            code = ErrCode.vuidReadonly ∨ code = ErrCode.timeout) →
          delta.length = k + 1) := by
  intro fuel
  induction fuel with
  | zero =>
    intro it tgt st tr
    exact ⟨[], by simp [shardRetryLoop], by simp, by intro k code h; simp at h⟩
  | succ fuel ih =>
    intro it tgt st tr
    rcases ha : shardAttempt env index hasCancel it tgt st with ⟨stop, res, tgt2, st2, entry⟩
    cases stop with
    | true =>
      refine ⟨entry.toList, ?_, ?_, ?_⟩
      · simp [shardRetryLoop, ha]
      · cases entry <;> simp
      · intro k code h hsc
        cases entry with
        | none => simp at h
        | some e =>
          cases k with
          | zero => simp
          | succ k2 => simp at h
    | false =>
      cases hfuel : fuel with
      | zero =>
        refine ⟨entry.toList, ?_, ?_, ?_⟩
        · simp [shardRetryLoop, ha]
        · cases entry <;> simp
        · intro k code h hsc
          cases entry with
          | none => simp at h
          | some e =>
            cases k with
            | zero => simp
            | succ k2 => simp at h
      | succ fuel2 =>
        have hloop : (shardRetryLoop env index hasCancel (fuel2 + 1 + 1) it tgt st tr).2.2 =
            (shardRetryLoop env index hasCancel (fuel2 + 1) (it + 1) tgt2 st2
              (tr ++ entry.toList)).2.2 := by
          simp [shardRetryLoop, ha]
        rcases ih (it + 1) tgt2 st2 (tr ++ entry.toList) with ⟨delta2, hd2, hlen2, hprop2⟩
        rw [hfuel] at hd2 hlen2
        refine ⟨entry.toList ++ delta2, ?_, ?_, ?_⟩
        · rw [hloop, hd2, List.append_assoc]
        · cases entry <;> (simp_all; try omega)
        · intro k code h hsc
          cases entry with
          | none =>
            simp only [Option.toList_none, List.nil_append] at h ⊢
            exact hprop2 k code h hsc
          | some e =>
            cases k with
            | zero =>
              simp only [Option.toList_some, List.singleton_append, List.get?_cons_zero,
                Option.some.injEq] at h
              exfalso
              exact shardAttempt_not_stop_not_shortCircuit env index hasCancel it tgt st
                res tgt2 st2 code (h ▸ ha) hsc
            | succ k2 =>
              simp only [Option.toList_some, List.singleton_append,
                List.get?_cons_succ] at h
              have := hprop2 k2 code h hsc
              simp only [Option.toList_some, List.singleton_append, List.length_cons]
              omega

/-- C8: each getOneShardFromHost call makes at most 3 transport attempts, and
any attempt failing with Overload, DiskBroken, VuidReadonly or a timeout is
the last attempt of the call — the loop returns immediately.  The exponential
backoff between attempts only delays them and is not modelled. -/
theorem C8_transport_retry_policy (env : ShardHostEnv) (index : Nat)
    (hasCancel : Bool) (tgt : ShardTarget) :
    ((getOneShardFromHostM env index hasCancel tgt).2.2).length ≤ 3 ∧
    (∀ k code,
      ((getOneShardFromHostM env index hasCancel tgt).2.2).get? k =
        some (TransportResult.err code) →
      (code = ErrCode.overload ∨ code = ErrCode.diskBroken ∨
        code = ErrCode.vuidReadonly ∨ code = ErrCode.timeout) →
      ((getOneShardFromHostM env index hasCancel tgt).2.2).length = k + 1) := by
  rcases shardRetryLoop_trace_delta env index hasCancel 3 0 tgt ⟨0, 0, 0, 0⟩ []
    with ⟨delta, hd, hlen, hprop⟩
  unfold getOneShardFromHostM
  rw [hd]
  simp only [List.nil_append]
  exact ⟨hlen, hprop⟩

/-- Witness for C8: with a transport that always answers Overload, exactly one
attempt happens and it is the last. -/
theorem C8_transport_retry_policy_witness :
    ((getOneShardFromHostM
      ⟨fun _ _ => TransportResult.err ErrCode.overload, fun _ => none,
        fun _ => none, fun _ => false⟩ 0 true ⟨"a", 1, 1⟩).2.2).length = 0 + 1 :=
  (C8_transport_retry_policy
    ⟨fun _ _ => TransportResult.err ErrCode.overload, fun _ => none,
      fun _ => none, fun _ => false⟩ 0 true ⟨"a", 1, 1⟩).2 0 ErrCode.overload
    (by rfl) (Or.inl rfl)

/-- Every attempt advances the refresh counter by one exactly when its
transport result was an identity-mismatch error: h.getVolume with cache
disallowed is called once in the NotFound cases and never otherwise. -/
theorem shardAttempt_refreshes (env : ShardHostEnv) (index : Nat)
    (hasCancel : Bool) (it : Nat) (tgt : ShardTarget) (st : ShardHostStats)
    (stop : Bool) (res : ShardHostResult) (tgt2 : ShardTarget)
    (st2 : ShardHostStats) (entry : Option TransportResult)
    (ha : shardAttempt env index hasCancel it tgt st = (stop, res, tgt2, st2, entry)) :
    st2.refreshes = st.refreshes + ((entry.toList).filter isNotFoundErr).length := by
  unfold shardAttempt at ha
  split at ha
  · simp only [Prod.mk.injEq] at ha
    obtain ⟨-, -, -, h4, h5⟩ := ha
    subst h4 h5
    simp [isNotFoundErr]
  · split at ha
    case h_1 =>
      simp only [Prod.mk.injEq] at ha
      obtain ⟨-, -, -, h4, h5⟩ := ha
      subst h4 h5
      simp [isNotFoundErr]
    case h_2 =>
      rename_i code heq
      cases code <;> dsimp only at ha <;> (repeat' split at ha) <;>
        (simp only [Prod.mk.injEq] at ha
         obtain ⟨-, -, -, h4, h5⟩ := ha
         subst h4 h5
         simp [isNotFoundErr])

/-- An identity-mismatch failure never interrupts the retry loop: the attempt
always reports continue, whether it retargeted or threshold-punished. -/
theorem shardAttempt_notFound_continue (env : ShardHostEnv) (index : Nat)
    (hasCancel : Bool) (it : Nat) (tgt1 : ShardTarget) (st1 : ShardHostStats)
    (stop : Bool) (res : ShardHostResult) (tgt2 : ShardTarget)
    (st2 : ShardHostStats) (code : ErrCode)
    (ha : shardAttempt env index hasCancel it tgt1 st1 =
      (stop, res, tgt2, st2, some (TransportResult.err code)))
    (hc : code = ErrCode.diskNotFound ∨ code = ErrCode.vuidNotFound) :
    stop = false := by
  unfold shardAttempt at ha
  split at ha
  · simp at ha
  · split at ha
    case h_1 => simp at ha
    case h_2 =>
      rename_i code2 heq
      cases code2 <;> dsimp only at ha
      case overload => rcases hc with rfl | rfl <;> simp_all
      case diskBroken => rcases hc with rfl | rfl <;> simp_all
      case vuidReadonly => rcases hc with rfl | rfl <;> simp_all
      case timeout => rcases hc with rfl | rfl <;> simp_all
      case other => rcases hc with rfl | rfl <;> simp_all
      case diskNotFound =>
        repeat' split at ha
        all_goals (simp only [Prod.mk.injEq] at ha; exact ha.1.symm)
      case vuidNotFound =>
        repeat' split at ha
        all_goals (simp only [Prod.mk.injEq] at ha; exact ha.1.symm)

/-- The refresh counter over a whole retry loop equals the number of
identity-mismatch failures among the executed attempts. -/
theorem shardRetryLoop_refreshes (env : ShardHostEnv) (index : Nat)
    (hasCancel : Bool) :
    ∀ (fuel it : Nat) (tgt : ShardTarget) (st : ShardHostStats)
      (tr : List TransportResult),
      (shardRetryLoop env index hasCancel fuel it tgt st tr).2.1.refreshes +
          (tr.filter isNotFoundErr).length =
        st.refreshes +
          (((shardRetryLoop env index hasCancel fuel it tgt st tr).2.2).filter
            isNotFoundErr).length := by
  intro fuel
  induction fuel with
  | zero =>
    intro it tgt st tr
    simp [shardRetryLoop]
  | succ fuel ih =>
    intro it tgt st tr
    rcases ha : shardAttempt env index hasCancel it tgt st with ⟨stop, res, tgt2, st2, entry⟩
    have href := shardAttempt_refreshes env index hasCancel it tgt st stop res tgt2 st2 entry ha
    cases stop with
    | true =>
      have hres : shardRetryLoop env index hasCancel (fuel + 1) it tgt st tr =
          (res, st2, tr ++ entry.toList) := by
        simp [shardRetryLoop, ha]
      rw [hres]
      simp only [List.filter_append, List.length_append]
      omega
    | false =>
      cases fuel with
      | zero =>
        have hres : shardRetryLoop env index hasCancel 1 it tgt st tr =
            (res, st2, tr ++ entry.toList) := by
          simp [shardRetryLoop, ha]
        rw [hres]
        simp only [List.filter_append, List.length_append]
        omega
      | succ fuel2 =>
        have hres : shardRetryLoop env index hasCancel (fuel2 + 1 + 1) it tgt st tr =
            shardRetryLoop env index hasCancel (fuel2 + 1) (it + 1) tgt2 st2
              (tr ++ entry.toList) := by
          simp [shardRetryLoop, ha]
        rw [hres]
        have := ih (it + 1) tgt2 st2 (tr ++ entry.toList)
        simp only [List.filter_append, List.length_append] at this
        omega

/-- C4 counterexample: with a unit whose storage node keeps answering
VuidNotFound and a volume resolver that keeps returning the same disk for the
unit index, one getOneShardFromHost call for that single unit performs three
forced volume refreshes, not exactly one — the second mismatch triggers
another refresh instead of being treated as a final hard failure. -/
theorem C4_identity_mismatch_counterexample :
    ((getOneShardFromHostM
      ⟨fun _ _ => TransportResult.err ErrCode.vuidNotFound,
        fun _ => some [⟨11, 21, "a"⟩, ⟨12, 22, "b"⟩],
        fun _ => none, fun _ => false⟩
      1 true ⟨"b", 22, 12⟩).2.1.refreshes = 3) ∧
    ¬((getOneShardFromHostM
      ⟨fun _ _ => TransportResult.err ErrCode.vuidNotFound,
        fun _ => some [⟨11, 21, "a"⟩, ⟨12, 22, "b"⟩],
        fun _ => none, fun _ => false⟩
      1 true ⟨"b", 22, 12⟩).2.1.refreshes = 1) := by
  refine ⟨rfl, ?_⟩
  intro h
  rw [show (getOneShardFromHostM
      ⟨fun _ _ => TransportResult.err ErrCode.vuidNotFound,
        fun _ => some [⟨11, 21, "a"⟩, ⟨12, 22, "b"⟩],
        fun _ => none, fun _ => false⟩
      1 true ⟨"b", 22, 12⟩).2.1.refreshes = 3 from rfl] at h
  exact absurd h (by decide)

/-- C4 amended: an identity-mismatch error triggers one forced volume refresh
on every failing attempt — the refresh count of a transport call equals the
number of NotFound-classified attempts in its trace, bounded by the 3-attempt
budget — and a mismatch never interrupts the retry loop: whether the refresh
yields a usable new target (different, unpunished disk) or only a threshold
punishment, the attempt reports continue and the loop retries. -/
theorem C4_identity_mismatch_refresh_per_attempt (env : ShardHostEnv)
    (index : Nat) (hasCancel : Bool) (tgt : ShardTarget) :
    ((getOneShardFromHostM env index hasCancel tgt).2.1.refreshes =
      (((getOneShardFromHostM env index hasCancel tgt).2.2).filter
        isNotFoundErr).length) ∧
    ((getOneShardFromHostM env index hasCancel tgt).2.2).length ≤ 3 ∧
    (∀ (it : Nat) (tgt1 : ShardTarget) (st1 : ShardHostStats) (stop : Bool)
        (res : ShardHostResult) (tgt2 : ShardTarget) (st2 : ShardHostStats)
        (code : ErrCode),
      shardAttempt env index hasCancel it tgt1 st1 =
        (stop, res, tgt2, st2, some (TransportResult.err code)) →
      (code = ErrCode.diskNotFound ∨ code = ErrCode.vuidNotFound) →
      stop = false) := by
  refine ⟨?_, ?_, ?_⟩
  · have := shardRetryLoop_refreshes env index hasCancel 3 0 tgt ⟨0, 0, 0, 0⟩ []
    unfold getOneShardFromHostM
    simpa using this
  · rcases shardRetryLoop_trace_delta env index hasCancel 3 0 tgt ⟨0, 0, 0, 0⟩ []
      with ⟨delta, hd, hlen, _⟩
    unfold getOneShardFromHostM
    rw [hd]
    simpa using hlen
  · intro it tgt1 st1 stop res tgt2 st2 code ha hc
    exact shardAttempt_notFound_continue env index hasCancel it tgt1 st1 stop res
      tgt2 st2 code ha hc

/-- Witness for the amended C4 at the counterexample environment: three
NotFound attempts in the trace, three refreshes. -/
theorem C4_identity_mismatch_refresh_per_attempt_witness :
    ((getOneShardFromHostM
      ⟨fun _ _ => TransportResult.err ErrCode.vuidNotFound,
        fun _ => some [⟨11, 21, "a"⟩, ⟨12, 22, "b"⟩],
        fun _ => none, fun _ => false⟩
      1 true ⟨"b", 22, 12⟩).2.1.refreshes =
      (((getOneShardFromHostM
        ⟨fun _ _ => TransportResult.err ErrCode.vuidNotFound,
          fun _ => some [⟨11, 21, "a"⟩, ⟨12, 22, "b"⟩],
          fun _ => none, fun _ => false⟩
        1 true ⟨"b", 22, 12⟩).2.2).filter isNotFoundErr).length) ∧
    ((getOneShardFromHostM
      ⟨fun _ _ => TransportResult.err ErrCode.vuidNotFound,
        fun _ => some [⟨11, 21, "a"⟩, ⟨12, 22, "b"⟩],
        fun _ => none, fun _ => false⟩
      1 true ⟨"b", 22, 12⟩).2.2).length ≤ 3 :=
  ⟨(C4_identity_mismatch_refresh_per_attempt
      ⟨fun _ _ => TransportResult.err ErrCode.vuidNotFound,
        fun _ => some [⟨11, 21, "a"⟩, ⟨12, 22, "b"⟩],
        fun _ => none, fun _ => false⟩ 1 true ⟨"b", 22, 12⟩).1,
    (C4_identity_mismatch_refresh_per_attempt
      ⟨fun _ _ => TransportResult.err ErrCode.vuidNotFound,
        fun _ => some [⟨11, 21, "a"⟩, ⟨12, 22, "b"⟩],
        fun _ => none, fun _ => false⟩ 1 true ⟨"b", 22, 12⟩).2.1⟩

/-- Every member of a distance group is a resolvable unit whose host info
realizes that distance. -/
theorem mem_sortGroup (getDiskHost : Nat → Option HostIDC) (idc : String)
    (vuidPhys : List CtrlUnit) (dis : Nat) (u : sortedVuid)
    (hu : u ∈ sortGroup getDiskHost idc vuidPhys dis) :
    ∃ hi, getDiskHost u.diskID = some hi ∧ distance idc hi.IDC hi.Punished = dis := by
  rcases List.mem_filterMap.mp hu with ⟨p, hp, hf⟩
  rcases hh : getDiskHost p.2.DiskID with _ | hi
  · rw [hh] at hf
    simp at hf
  · rw [hh] at hf
    dsimp only at hf
    by_cases hd : distance idc hi.IDC hi.Punished = dis
    · rw [if_pos hd] at hf
      refine ⟨hi, ?_, hd⟩
      have : u.diskID = p.2.DiskID := by
        rw [← Option.some.inj hf]
      rw [this, hh]
    · rw [if_neg hd] at hf
      simp at hf

/-- C9: the locality sorter assigns distance 0 to same-IDC unpunished disks,
1 to other-IDC unpunished, 2 to same-IDC punished, 3 to other-IDC punished;
its output is the concatenation, in ascending distance, of a within-group
permutation of each distance group (randomization only inside groups); and
when the resulting order has fewer than N entries, the pipeline fails the
blob at once with the broken-blob error, before reading any shard. -/
theorem C9_sorted_vuids_by_distance
    (getDiskHost : Nat → Option HostIDC)
    (shuffle : Nat → List sortedVuid → List sortedVuid)
    (hshuffle : ∀ d l, (shuffle d l).Perm l)
    (idc : String) (vuidPhys : List CtrlUnit)
    (clusterID dataN : Nat) (blob : blobGetArgs) :
    (∀ idc2 p,
      (distance idc idc2 p = 0 ↔ (idc = idc2 ∧ p = false)) ∧
      (distance idc idc2 p = 1 ↔ (idc ≠ idc2 ∧ p = false)) ∧
      (distance idc idc2 p = 2 ↔ (idc = idc2 ∧ p = true)) ∧
      (distance idc idc2 p = 3 ↔ (idc ≠ idc2 ∧ p = true))) ∧
    (∃ g0 g1 g2 g3,
      genSortedVuidByIDC getDiskHost shuffle idc vuidPhys = g0 ++ g1 ++ g2 ++ g3 ∧
      g0.Perm (sortGroup getDiskHost idc vuidPhys 0) ∧
      g1.Perm (sortGroup getDiskHost idc vuidPhys 1) ∧
      g2.Perm (sortGroup getDiskHost idc vuidPhys 2) ∧
      g3.Perm (sortGroup getDiskHost idc vuidPhys 3)) ∧
    (∀ dis u, u ∈ sortGroup getDiskHost idc vuidPhys dis →
      ∃ hi, getDiskHost u.diskID = some hi ∧
        distance idc hi.IDC hi.Punished = dis) ∧
    ((genSortedVuidByIDC getDiskHost shuffle idc vuidPhys).length < dataN →
      pipelineVuidsCheck clusterID blob
          (genSortedVuidByIDC getDiskHost shuffle idc vuidPhys) dataN =
        Except.error (GetErr.brokenBlob clusterID blob.Vid blob.Bid)) := by
  refine ⟨?_, ?_, ?_, ?_⟩
  · intro idc2 p
    unfold distance
    by_cases hi : idc = idc2 <;> cases p <;> simp [hi]
  · have hperm : ∀ d,
        (if (sortGroup getDiskHost idc vuidPhys d).isEmpty then []
          else shuffle d (sortGroup getDiskHost idc vuidPhys d)).Perm
          (sortGroup getDiskHost idc vuidPhys d) := by
      intro d
      by_cases he : (sortGroup getDiskHost idc vuidPhys d).isEmpty
      · rw [if_pos he]
        rw [List.isEmpty_iff] at he
        rw [he]
      · rw [if_neg he]
        exact hshuffle d _
    refine ⟨_, _, _, _, ?_, hperm 0, hperm 1, hperm 2, hperm 3⟩
    show genSortedVuidByIDC getDiskHost shuffle idc vuidPhys = _
    unfold genSortedVuidByIDC
    have h4 : List.range 4 = [0, 1, 2, 3] := rfl
    rw [h4]
    simp [List.append_assoc]
  · exact fun dis u hu => mem_sortGroup getDiskHost idc vuidPhys dis u hu
  · intro hlen
    unfold pipelineVuidsCheck
    rw [if_pos hlen]

/-- Witness for C9 at a concrete two-unit setup: one resolvable unit gives an
order of length 1, which is below N = 2, so the pipeline fails the blob. -/
theorem C9_sorted_vuids_by_distance_witness :
    pipelineVuidsCheck 1 ⟨5, 9, 4, 0, 4⟩
        (genSortedVuidByIDC
          (fun d => if d = 21 then some ⟨"h", "idcA", false⟩ else none)
          (fun _ l => l) "idcA" [⟨11, 21, "h"⟩, ⟨12, 22, "h2"⟩]) 2 =
      Except.error (GetErr.brokenBlob 1 5 9) :=
  (C9_sorted_vuids_by_distance
    (fun d => if d = 21 then some ⟨"h", "idcA", false⟩ else none)
    (fun _ l => l) (fun _ l => List.Perm.refl l) "idcA"
    [⟨11, 21, "h"⟩, ⟨12, 22, "h2"⟩] 1 2 ⟨5, 9, 4, 0, 4⟩).2.2.2 (by decide)

/-! Equivalence of the two nested loops of genLocationBlobs with the single
loop over the flattened blob list. -/

theorem minU64_eq_min (a b : Nat) : minU64 a b = min a b := by
  unfold minU64
  split <;> omega

theorem genRunLoop_eq_flatLoop (vid blobSize locSize firstBlobIdx : Nat) :
    ∀ (count currBid idx off rem : Nat) (acc : List blobGetArgs),
      genRunLoop vid blobSize locSize firstBlobIdx count currBid idx off rem acc =
        flatLoop blobSize locSize firstBlobIdx
          ((List.range' currBid count).map (fun b => (vid, b))) idx off rem acc := by
  intro count
  induction count with
  | zero => intro currBid idx off rem acc; rfl
  | succ count ih =>
    intro currBid idx off rem acc
    rw [List.range'_succ, List.map_cons]
    by_cases h0 : rem = 0
    · simp [genRunLoop, flatLoop, h0]
    · by_cases h1 : firstBlobIdx ≤ idx
      · simp only [genRunLoop, flatLoop, if_neg h0, if_pos h1]
        exact ih (currBid + 1) (idx + 1) 0 _ _
      · simp only [genRunLoop, flatLoop, if_neg h0, if_neg h1]
        exact ih (currBid + 1) (idx + 1) off rem acc

theorem flatLoop_append (blobSize locSize firstBlobIdx : Nat) :
    ∀ (l1 l2 : List (Nat × Nat)) (idx off rem : Nat) (acc : List blobGetArgs),
      flatLoop blobSize locSize firstBlobIdx (l1 ++ l2) idx off rem acc =
        (match flatLoop blobSize locSize firstBlobIdx l1 idx off rem acc with
          | Sum.inl blobs => Sum.inl blobs
          | Sum.inr (idx2, off2, rem2, acc2) =>
            flatLoop blobSize locSize firstBlobIdx l2 idx2 off2 rem2 acc2) := by
  intro l1
  induction l1 with
  | nil => intro l2 idx off rem acc; rfl
  | cons p rest ih =>
    rcases p with ⟨vid, bid⟩
    intro l2 idx off rem acc
    by_cases h0 : rem = 0
    · simp [flatLoop, h0]
    · by_cases h1 : firstBlobIdx ≤ idx
      · simp only [List.cons_append, flatLoop, if_neg h0, if_pos h1]
        exact ih l2 (idx + 1) 0 _ _
      · simp only [List.cons_append, flatLoop, if_neg h0, if_neg h1]
        exact ih l2 (idx + 1) off rem acc

theorem genRuns_eq_flatLoop (blobSize locSize firstBlobIdx : Nat) :
    ∀ (runs : List SliceInfo) (idx off rem : Nat) (acc : List blobGetArgs),
      genRuns blobSize locSize firstBlobIdx runs (idx, off, rem, acc) =
        flatLoop blobSize locSize firstBlobIdx (flatRuns runs) idx off rem acc := by
  intro runs
  induction runs with
  | nil => intro idx off rem acc; rfl
  | cons run rest ih =>
    intro idx off rem acc
    simp only [genRuns, flatRuns, List.flatMap_cons]
    rw [genRunLoop_eq_flatLoop, flatLoop_append]
    rcases flatLoop blobSize locSize firstBlobIdx
      ((List.range' run.MinBid run.Count).map (fun b => (run.Vid, b))) idx off rem acc
      with blobs | ⟨i2, o2, r2, a2⟩
    · rfl
    · exact ih i2 o2 r2 a2

theorem flatRuns_getElem? : ∀ (runs : List SliceInfo) (idx : Nat),
    (flatRuns runs)[idx]? = blobIdAt runs idx := by
  intro runs
  induction runs with
  | nil => intro idx; rfl
  | cons run rest ih =>
    intro idx
    simp only [flatRuns, List.flatMap_cons, blobIdAt] at *
    by_cases h : idx < run.Count
    · rw [List.getElem?_append_left (by simpa using h), if_pos h]
      simp only [List.getElem?_map]
      rw [List.getElem?_range' _ _ h]
      simp
    · rw [List.getElem?_append_right (by simpa using Nat.le_of_not_lt h), if_neg h]
      simpa using ih (idx - run.Count)

theorem flatRuns_length (runs : List SliceInfo) :
    (flatRuns runs).length = totalBlobCount runs := by
  simp [flatRuns, List.length_flatMap, totalBlobCount, Function.comp_def]

theorem flatLoop_rem_zero (blobSize locSize firstBlobIdx : Nat) :
    ∀ (l : List (Nat × Nat)) (idx off : Nat) (acc : List blobGetArgs),
      loopOut (flatLoop blobSize locSize firstBlobIdx l idx off 0 acc) = (acc, 0)
  | [], _, _, _ => rfl
  | (vid, bid) :: rest, idx, off, acc => by
    simp [flatLoop, loopOut]

theorem specBlobsFrom_rem_zero (runs : List SliceInfo) (blobSize locSize : Nat) :
    ∀ (fuel idx off : Nat), specBlobsFrom runs blobSize locSize fuel idx off 0 = []
  | 0, _, _ => rfl
  | fuel + 1, idx, off => by simp [specBlobsFrom]

theorem flatLoop_skip (blobSize locSize firstBlobIdx : Nat) :
    ∀ (l : List (Nat × Nat)) (idx off rem : Nat) (acc : List blobGetArgs),
      0 < rem → idx ≤ firstBlobIdx →
      loopOut (flatLoop blobSize locSize firstBlobIdx l idx off rem acc) =
        loopOut (flatLoop blobSize locSize firstBlobIdx
          (l.drop (firstBlobIdx - idx)) firstBlobIdx off rem acc) := by
  intro l
  induction l with
  | nil =>
    intro idx off rem acc hrem hle
    simp [flatLoop, loopOut]
  | cons p rest ih =>
    intro idx off rem acc hrem hle
    rcases Nat.lt_or_ge idx firstBlobIdx with hlt | hge
    · rcases p with ⟨vid, bid⟩
      have hd : firstBlobIdx - idx = (firstBlobIdx - (idx + 1)) + 1 := by omega
      rw [hd, List.drop_succ_cons]
      have hstep : flatLoop blobSize locSize firstBlobIdx ((vid, bid) :: rest)
          idx off rem acc =
          flatLoop blobSize locSize firstBlobIdx rest (idx + 1) off rem acc := by
        simp only [flatLoop, if_neg (by omega : ¬rem = 0),
          if_neg (Nat.not_le.mpr hlt)]
      rw [hstep]
      exact ih (idx + 1) off rem acc hrem hlt
    · have heq : idx = firstBlobIdx := Nat.le_antisymm hle hge
      subst heq
      rw [Nat.sub_self, List.drop_zero]

theorem minU64_facts (a b : Nat) :
    minU64 a b ≤ a ∧ minU64 a b ≤ b ∧ (minU64 a b = a ∨ minU64 a b = b) := by
  unfold minU64
  split <;> omega

theorem flatLoop_main (runs : List SliceInfo) (blobSize locSize firstBlobIdx : Nat)
    (hb : 0 < blobSize) :
    ∀ (l : List (Nat × Nat)) (idx off rem : Nat) (acc : List blobGetArgs),
      firstBlobIdx ≤ idx → off < blobSize →
      (∀ k, k < l.length → l[k]? = blobIdAt runs (idx + k)) →
      loopOut (flatLoop blobSize locSize firstBlobIdx l idx off rem acc) =
        (acc ++ specBlobsFrom runs blobSize locSize l.length idx off rem,
          rem - minU64 rem (blobSize * l.length - off)) := by
  intro l
  induction l with
  | nil =>
    intro idx off rem acc hge hoff hl
    simp only [flatLoop, loopOut, List.length_nil, specBlobsFrom, List.append_nil]
    have hz : blobSize * 0 - off = 0 := by omega
    have hm := minU64_facts rem (blobSize * 0 - off)
    rw [hz] at hm
    congr 1
    rw [hz]
    omega
  | cons p rest ih =>
    intro idx off rem acc hge hoff hl
    rcases p with ⟨vid, bid⟩
    by_cases h0 : rem = 0
    · subst h0
      simp only [flatLoop, if_pos rfl, loopOut, specBlobsFrom, List.length_cons]
      simp
    · have hbid : blobIdAt runs idx = some (vid, bid) := by
        have h := hl 0 (by simp)
        simpa using h.symm
      have ht : 0 < minU64 rem (blobSize - off) := by
        unfold minU64
        split <;> omega
      simp only [flatLoop, if_neg h0, if_pos hge, if_pos ht]
      have hih := ih (idx + 1) 0 (rem - minU64 rem (blobSize - off))
        (acc ++ [blobGetArgs.mk vid bid (minU64 (locSize - idx * blobSize) blobSize)
          off (minU64 rem (blobSize - off))])
        (Nat.le_trans hge (Nat.le_succ idx)) hb
        (by
          intro k hk
          have h := hl (k + 1) (by simpa using Nat.succ_lt_succ hk)
          rw [List.getElem?_cons_succ] at h
          rw [h]
          congr 1
          omega)
      rw [hih]
      have hspec : specBlobsFrom runs blobSize locSize (rest.length + 1) idx off rem =
          blobGetArgs.mk vid bid (minU64 (locSize - idx * blobSize) blobSize)
            off (minU64 rem (blobSize - off)) ::
            specBlobsFrom runs blobSize locSize rest.length (idx + 1) 0
              (rem - minU64 rem (blobSize - off)) := by
        simp only [specBlobsFrom, if_neg h0, hbid]
      rw [List.length_cons, hspec]
      congr 1
      · rw [List.append_assoc]; rfl
      · have hm1 := minU64_facts rem (blobSize - off)
        rw [Nat.mul_succ]
        have hm2 := minU64_facts (rem - minU64 rem (blobSize - off))
          (blobSize * rest.length - 0)
        have hm3 := minU64_facts rem (blobSize * rest.length + blobSize - off)
        generalize hP : blobSize * rest.length = P at hm2 hm3 ⊢
        omega

theorem blobIdAt_isSome : ∀ (runs : List SliceInfo) (idx : Nat),
    idx < totalBlobCount runs → (blobIdAt runs idx).isSome = true := by
  intro runs
  induction runs with
  | nil =>
    intro idx h
    simp [totalBlobCount] at h
  | cons run rest ih =>
    intro idx h
    simp only [blobIdAt]
    by_cases hlt : idx < run.Count
    · rw [if_pos hlt]
      rfl
    · rw [if_neg hlt]
      apply ih
      simp only [totalBlobCount, List.map_cons, List.sum_cons] at h
      simp only [totalBlobCount]
      omega

theorem specBlobsFrom_sum (runs : List SliceInfo) (blobSize locSize : Nat)
    (hb : 0 < blobSize) :
    ∀ (fuel idx off rem : Nat),
      off < blobSize →
      idx + fuel ≤ totalBlobCount runs →
      rem ≤ blobSize * fuel - off →
      ((specBlobsFrom runs blobSize locSize fuel idx off rem).map
        (fun b => b.ReadSize)).sum = rem := by
  intro fuel
  induction fuel with
  | zero =>
    intro idx off rem hoff hidx hcap
    simp only [specBlobsFrom, List.map_nil, List.sum_nil]
    omega
  | succ fuel ih =>
    intro idx off rem hoff hidx hcap
    by_cases h0 : rem = 0
    · subst h0
      simp [specBlobsFrom]
    · have hsome := blobIdAt_isSome runs idx (by omega)
      rcases hx : blobIdAt runs idx with _ | ⟨vid, bid⟩
      · rw [hx] at hsome
        simp at hsome
      · simp only [specBlobsFrom, if_neg h0, hx, List.map_cons, List.sum_cons]
        rw [Nat.mul_succ] at hcap
        have hm := minU64_facts rem (blobSize - off)
        rw [ih (idx + 1) 0 (rem - minU64 rem (blobSize - off)) hb (by omega)
          (by
            generalize hP : blobSize * fuel = P at hcap ⊢
            omega)]
        omega

theorem cover_iff (B offset readSize total : Nat) (hB : 0 < B) :
    (0 < readSize - minU64 readSize (B * (total - offset / B) - offset % B)) ↔
      (0 < readSize ∧ total * B < offset + readSize) := by
  have hm := minU64_facts readSize (B * (total - offset / B) - offset % B)
  have hdm := Nat.div_add_mod offset B
  have hmod := Nat.mod_lt offset hB
  rcases Nat.le_total total (offset / B) with hc | hc
  · have h1 : total - offset / B = 0 := by omega
    rw [h1] at hm ⊢
    have h3 : total * B ≤ offset := by
      calc total * B ≤ offset / B * B := Nat.mul_le_mul_right _ hc
        _ ≤ offset := Nat.div_mul_le_self offset B
    rw [Nat.mul_zero] at hm ⊢
    omega
  · have hsplit : total * B = B * (offset / B) + B * (total - offset / B) := by
      rw [← Nat.mul_add, Nat.mul_comm]
      congr 1
      omega
    generalize hA : B * (offset / B) = A at hdm hsplit
    generalize hQ : B * (total - offset / B) = Q at hm hsplit ⊢
    generalize hT : total * B = T at hsplit ⊢
    omega

/-- C5: genLocationBlobs agrees exactly with its specification — it fails
precisely when the range check, the blob-size check, or run coverage fails,
and otherwise returns the covering BlobRefs with blob size
min(location.BlobSize, Size − idx · BlobSize) in order; the returned read
sizes sum to the requested readSize (the range is exactly covered); and an
empty list makes Get write nothing and return nil. -/
theorem C5_genLocationBlobs_correct (location : Location) (readSize offset : Nat) :
    genLocationBlobs location readSize offset =
      genLocationBlobsSpec location readSize offset ∧
    (∀ bs, genLocationBlobs location readSize offset = Except.ok bs →
      (bs.map (fun b => b.ReadSize)).sum = readSize) ∧
    (genLocationBlobs location readSize offset = Except.ok [] →
      getEarly location readSize offset = some (Except.ok ())) := by
  have hmain : genLocationBlobs location readSize offset =
      genLocationBlobsSpec location readSize offset := by
    unfold genLocationBlobs genLocationBlobsSpec
    by_cases hsz : location.Size < offset + readSize
    · rw [if_pos hsz, if_pos hsz]
    · rw [if_neg hsz, if_neg hsz]
      by_cases hb0 : location.BlobSize = 0
      · simp [hb0]
      · simp only [hb0, if_neg hb0, if_false]
        have hB : 0 < location.BlobSize := Nat.pos_of_ne_zero hb0
        have hlo : loopOut (flatLoop location.BlobSize location.Size
            (offset / location.BlobSize) (flatRuns location.Blobs) 0
            (offset % location.BlobSize) readSize []) =
            (specBlobsFrom location.Blobs location.BlobSize location.Size
              (totalBlobCount location.Blobs - offset / location.BlobSize)
              (offset / location.BlobSize) (offset % location.BlobSize) readSize,
             readSize - minU64 readSize (location.BlobSize *
               (totalBlobCount location.Blobs - offset / location.BlobSize) -
               offset % location.BlobSize)) := by
          by_cases hr0 : readSize = 0
          · subst hr0
            rw [flatLoop_rem_zero, specBlobsFrom_rem_zero]
            simp
          · rw [flatLoop_skip location.BlobSize location.Size
              (offset / location.BlobSize) (flatRuns location.Blobs) 0
              (offset % location.BlobSize) readSize [] (by omega) (Nat.zero_le _)]
            rw [Nat.sub_zero]
            rw [flatLoop_main location.Blobs location.BlobSize location.Size
              (offset / location.BlobSize) hB
              ((flatRuns location.Blobs).drop (offset / location.BlobSize))
              (offset / location.BlobSize) (offset % location.BlobSize) readSize []
              (Nat.le_refl _) (Nat.mod_lt offset hB)
              (by
                intro k hk
                rw [List.getElem?_drop, flatRuns_getElem?])]
            rw [List.length_drop, flatRuns_length]
            simp
        rcases hG : genRuns location.BlobSize location.Size
            (offset / location.BlobSize) location.Blobs
            (0, offset % location.BlobSize, readSize, []) with blobs | ⟨i2, o2, r2, a2⟩
        · dsimp only
          rw [genRuns_eq_flatLoop] at hG
          rw [hG] at hlo
          simp only [loopOut] at hlo
          have hblobs : blobs = specBlobsFrom location.Blobs location.BlobSize
              location.Size (totalBlobCount location.Blobs - offset / location.BlobSize)
              (offset / location.BlobSize) (offset % location.BlobSize) readSize := by
            have := congrArg Prod.fst hlo
            simpa using this
          have hrem : (0 : Nat) = readSize - minU64 readSize (location.BlobSize *
              (totalBlobCount location.Blobs - offset / location.BlobSize) -
              offset % location.BlobSize) := by
            have := congrArg Prod.snd hlo
            simpa using this
          have hcond : ¬(0 < readSize ∧
              totalBlobCount location.Blobs * location.BlobSize < offset + readSize) := by
            rw [← cover_iff location.BlobSize offset readSize
              (totalBlobCount location.Blobs) hB]
            omega
          rw [if_neg hcond, hblobs]
        · dsimp only
          rw [genRuns_eq_flatLoop] at hG
          rw [hG] at hlo
          simp only [loopOut] at hlo
          have ha2 : a2 = specBlobsFrom location.Blobs location.BlobSize
              location.Size (totalBlobCount location.Blobs - offset / location.BlobSize)
              (offset / location.BlobSize) (offset % location.BlobSize) readSize := by
            have := congrArg Prod.fst hlo
            simpa using this
          have hr2 : r2 = readSize - minU64 readSize (location.BlobSize *
              (totalBlobCount location.Blobs - offset / location.BlobSize) -
              offset % location.BlobSize) := by
            have := congrArg Prod.snd hlo
            simpa using this
          by_cases hpos : 0 < r2
          · rw [if_pos hpos]
            have hcond : 0 < readSize ∧
                totalBlobCount location.Blobs * location.BlobSize < offset + readSize := by
              rw [← cover_iff location.BlobSize offset readSize
                (totalBlobCount location.Blobs) hB]
              omega
            rw [if_pos hcond]
          · rw [if_neg hpos]
            have hcond : ¬(0 < readSize ∧
                totalBlobCount location.Blobs * location.BlobSize < offset + readSize) := by
              rw [← cover_iff location.BlobSize offset readSize
                (totalBlobCount location.Blobs) hB]
              omega
            rw [if_neg hcond, ha2]
  refine ⟨hmain, ?_, ?_⟩
  · intro bs hok
    rw [hmain] at hok
    unfold genLocationBlobsSpec at hok
    by_cases hsz : location.Size < offset + readSize
    · rw [if_pos hsz] at hok
      cases hok
    · rw [if_neg hsz] at hok
      by_cases hb0 : location.BlobSize = 0
      · rw [if_pos hb0] at hok
        cases hok
      · have hB : 0 < location.BlobSize := Nat.pos_of_ne_zero hb0
        rw [if_neg hb0] at hok
        by_cases hcond : 0 < readSize ∧
            totalBlobCount location.Blobs * location.BlobSize < offset + readSize
        · rw [if_pos hcond] at hok
          cases hok
        · rw [if_neg hcond] at hok
          have hbs : bs = specBlobsFrom location.Blobs location.BlobSize location.Size
              (totalBlobCount location.Blobs - offset / location.BlobSize)
              (offset / location.BlobSize) (offset % location.BlobSize) readSize :=
            (Except.ok.inj hok).symm
          subst hbs
          by_cases hr0 : readSize = 0
          · subst hr0
            rw [specBlobsFrom_rem_zero]
            rfl
          · have hcov : totalBlobCount location.Blobs * location.BlobSize ≥
                offset + readSize := by omega
            have hdm := Nat.div_add_mod offset location.BlobSize
            have hmod := Nat.mod_lt offset hB
            have hfbi : offset / location.BlobSize < totalBlobCount location.Blobs := by
              by_contra hle
              push_neg at hle
              have h1 : totalBlobCount location.Blobs * location.BlobSize ≤
                  offset / location.BlobSize * location.BlobSize :=
                Nat.mul_le_mul_right _ hle
              have h2 : offset / location.BlobSize * location.BlobSize ≤ offset :=
                Nat.div_mul_le_self offset location.BlobSize
              omega
            apply specBlobsFrom_sum location.Blobs location.BlobSize location.Size hB
              (totalBlobCount location.Blobs - offset / location.BlobSize)
              (offset / location.BlobSize) (offset % location.BlobSize) readSize
              (Nat.mod_lt offset hB) (by omega)
            have hsplit : totalBlobCount location.Blobs * location.BlobSize =
                location.BlobSize * (offset / location.BlobSize) +
                location.BlobSize *
                  (totalBlobCount location.Blobs - offset / location.BlobSize) := by
              rw [← Nat.mul_add, Nat.mul_comm]
              congr 1
              omega
            generalize hA : location.BlobSize * (offset / location.BlobSize) = A
              at hdm hsplit
            generalize hQ : location.BlobSize *
              (totalBlobCount location.Blobs - offset / location.BlobSize) = Q
              at hsplit ⊢
            generalize hT : totalBlobCount location.Blobs * location.BlobSize = T
              at hsplit hcov
            omega
  · intro h
    unfold getEarly
    rw [h]
    rfl

/-- C5 witness: a concrete location whose decomposition of a zero-size read
agrees with the specification, covers zero bytes, and short-circuits Get. -/
theorem C5_genLocationBlobs_correct_witness :
    genLocationBlobs ⟨1, 10, 4, [⟨100, 7, 3⟩]⟩ 0 2 =
      genLocationBlobsSpec ⟨1, 10, 4, [⟨100, 7, 3⟩]⟩ 0 2 ∧
    (([] : List blobGetArgs).map (fun b => b.ReadSize)).sum = 0 ∧
    getEarly ⟨1, 10, 4, [⟨100, 7, 3⟩]⟩ 0 2 = some (Except.ok ()) := by
  have h := C5_genLocationBlobs_correct ⟨1, 10, 4, [⟨100, 7, 3⟩]⟩ 0 2
  exact ⟨h.1, h.2.1 [] (by rfl), h.2.2 (by rfl)⟩

theorem take_range' : ∀ (n j s : Nat), j ≤ n →
    (List.range' s n).take j = List.range' s j := by
  intro n
  induction n with
  | zero =>
    intro j s h
    have : j = 0 := Nat.le_zero.mp h
    subst this
    rfl
  | succ n ih =>
    intro j s h
    cases j with
    | zero => rfl
    | succ j2 =>
      rw [List.range'_succ, List.take_succ_cons, ih j2 (s + 1) (by omega),
        ← List.range'_succ]

/-- The data-shard-only loop contacts a prefix of the units it was given. -/
theorem dsoLoop_prefix (fetch : Nat → Nat → Nat → Option (List Nat)) (shardSize : Nat) :
    ∀ (idxs : List Nat) (so remain : Nat) (acc c : List Nat),
      ∃ j, j ≤ idxs.length ∧
        (dsoLoop fetch shardSize idxs so remain acc c).contacted = c ++ idxs.take j := by
  intro idxs
  induction idxs with
  | nil =>
    intro so remain acc c
    refine ⟨0, Nat.le_refl 0, ?_⟩
    by_cases h : 0 < remain <;> simp [dsoLoop, h]
  | cons i rest ih =>
    intro so remain acc c
    by_cases h0 : remain = 0
    · exact ⟨0, Nat.zero_le _, by simp [dsoLoop, h0]⟩
    · rcases hf : fetch i so (minU64 remain (shardSize - so)) with _ | body
      · exact ⟨1, by simp, by simp [dsoLoop, h0, hf]⟩
      · by_cases hshort : body.length < minU64 remain (shardSize - so)
        · exact ⟨1, by simp, by simp [dsoLoop, h0, hf, hshort]⟩
        · rcases ih 0 (remain - minU64 remain (shardSize - so))
            (acc ++ body.take (minU64 remain (shardSize - so))) (c ++ [i])
            with ⟨j2, hj2, hc⟩
          refine ⟨j2 + 1, by simpa using Nat.succ_le_succ hj2, ?_⟩
          simp only [dsoLoop, if_neg h0, hf, if_neg hshort]
          rw [hc, List.take_succ_cons, List.append_assoc]
          rfl

/-- On success the data-shard-only loop contacted exactly the minimal number
of shards covering the remaining bytes. -/
theorem dsoLoop_success_contacted (fetch : Nat → Nat → Nat → Option (List Nat))
    (shardSize : Nat) (hss : 0 < shardSize) :
    ∀ (idxs : List Nat) (so remain : Nat) (acc c : List Nat) (out : List Nat),
      so < shardSize →
      (dsoLoop fetch shardSize idxs so remain acc c).result = Except.ok out →
      ((if remain = 0 then 0 else (so + remain + shardSize - 1) / shardSize) ≤
          idxs.length ∧
        (dsoLoop fetch shardSize idxs so remain acc c).contacted =
          c ++ idxs.take
            (if remain = 0 then 0 else (so + remain + shardSize - 1) / shardSize)) := by
  intro idxs
  induction idxs with
  | nil =>
    intro so remain acc c out hso hres
    by_cases h0 : remain = 0
    · subst h0
      simp [dsoLoop]
    · exfalso
      have : 0 < remain := Nat.pos_of_ne_zero h0
      simp [dsoLoop, this] at hres
  | cons i rest ih =>
    intro so remain acc c out hso hres
    by_cases h0 : remain = 0
    · subst h0
      simp [dsoLoop]
    · have hm := minU64_facts remain (shardSize - so)
      rcases hf : fetch i so (minU64 remain (shardSize - so)) with _ | body
      · exfalso
        simp [dsoLoop, h0, hf] at hres
      · by_cases hshort : body.length < minU64 remain (shardSize - so)
        · exfalso
          simp [dsoLoop, h0, hf, hshort] at hres
        · have hres2 : (dsoLoop fetch shardSize rest 0
              (remain - minU64 remain (shardSize - so))
              (acc ++ body.take (minU64 remain (shardSize - so)))
              (c ++ [i])).result = Except.ok out := by
            simpa [dsoLoop, h0, hf, hshort] using hres
          rcases ih 0 (remain - minU64 remain (shardSize - so))
            (acc ++ body.take (minU64 remain (shardSize - so))) (c ++ [i]) out hss hres2
            with ⟨hj2, hc⟩
          have hkey : (if remain = 0 then 0
              else (so + remain + shardSize - 1) / shardSize) =
              (if remain - minU64 remain (shardSize - so) = 0 then 0
                else (0 + (remain - minU64 remain (shardSize - so)) + shardSize - 1) /
                  shardSize) + 1 := by
            rw [if_neg h0]
            by_cases hz : remain - minU64 remain (shardSize - so) = 0
            · rw [if_pos hz]
              have h1 : so + remain + shardSize - 1 = (so + remain - 1) + shardSize := by
                omega
              rw [h1, Nat.add_div_right _ hss, Nat.div_eq_of_lt (by omega)]
            · rw [if_neg hz]
              have ht : minU64 remain (shardSize - so) = shardSize - so := by
                rcases hm.2.2 with h | h
                · omega
                · exact h
              have h1 : so + remain + shardSize - 1 =
                  (0 + (remain - minU64 remain (shardSize - so)) + shardSize - 1) +
                    shardSize := by
                omega
              rw [h1, Nat.add_div_right _ hss]
          constructor
          · rw [hkey]
            simpa using Nat.succ_le_succ hj2
          · have hcont : (dsoLoop fetch shardSize (i :: rest) so remain acc c).contacted =
                (dsoLoop fetch shardSize rest 0
                  (remain - minU64 remain (shardSize - so))
                  (acc ++ body.take (minU64 remain (shardSize - so)))
                  (c ++ [i])).contacted := by
              simp [dsoLoop, h0, hf, hshort]
            rw [hcont, hc, hkey, List.take_succ_cons, List.append_assoc]
            rfl

/-- The data-shard-only reader only ever fails with errNeedReconstructRead or
the distinct no-enough-data error. -/
theorem dsoLoop_error (fetch : Nat → Nat → Nat → Option (List Nat)) (shardSize : Nat) :
    ∀ (idxs : List Nat) (so remain : Nat) (acc c : List Nat) (e : GetErr),
      (dsoLoop fetch shardSize idxs so remain acc c).result = Except.error e →
      e = GetErr.needReconstruct ∨ e = GetErr.noEnoughData := by
  intro idxs
  induction idxs with
  | nil =>
    intro so remain acc c e h
    by_cases h0 : 0 < remain
    · simp [dsoLoop, h0] at h
      exact Or.inr h.symm
    · simp [dsoLoop, h0] at h
  | cons i rest ih =>
    intro so remain acc c e h
    by_cases h0 : remain = 0
    · simp [dsoLoop, h0] at h
    · rcases hf : fetch i so (minU64 remain (shardSize - so)) with _ | body
      · simp [dsoLoop, h0, hf] at h
        exact Or.inl h.symm
      · by_cases hshort : body.length < minU64 remain (shardSize - so)
        · simp [dsoLoop, h0, hf, hshort] at h
          exact Or.inl h.symm
        · have h2 : (dsoLoop fetch shardSize rest 0
              (remain - minU64 remain (shardSize - so))
              (acc ++ body.take (minU64 remain (shardSize - so)))
              (c ++ [i])).result = Except.error e := by
            simpa [dsoLoop, h0, hf, hshort] using h
          exact ih 0 _ _ _ e h2

/-- C6: Get attempts the data-shard-only fast path exactly when the
decomposition has one blob whose size fits one shard or whose read is under a
quarter of the blob; the fast path contacts only a prefix of the data units
from floor(offset / shardSize) (never parity), on success exactly the minimal
number of shards covering the read; it only fails with NeedReconstruct (for
any per-shard error) or the distinct no-enough-data error, and a
NeedReconstruct failure makes Get fall through to the general path. -/
theorem C6_data_shard_only_fast_path (blobs : List blobGetArgs)
    (shardSize dataN : Nat) (hss : 0 < shardSize)
    (fetch : Nat → Nat → Nat → Option (List Nat))
    (general : Except GetErr (List Nat)) (blob : blobGetArgs) :
    (fastPathTriggered blobs shardSize = true ↔
      ∃ b, blobs = [b] ∧ (b.BlobSize ≤ shardSize ∨ b.ReadSize < b.BlobSize / 4)) ∧
    (fastPathTriggered blobs shardSize = false →
      getReadPath blobs shardSize
          (getDataShardOnlyM fetch dataN shardSize blob).result general =
        (general, false, true)) ∧
    (fastPathTriggered blobs shardSize = true →
      (getDataShardOnlyM fetch dataN shardSize blob).result =
        Except.error GetErr.needReconstruct →
      getReadPath blobs shardSize
          (getDataShardOnlyM fetch dataN shardSize blob).result general =
        (general, true, true)) ∧
    (∃ j, j ≤ dataN - blob.Offset / shardSize ∧
      (getDataShardOnlyM fetch dataN shardSize blob).contacted =
        List.range' (blob.Offset / shardSize) j) ∧
    (∀ out, (getDataShardOnlyM fetch dataN shardSize blob).result = Except.ok out →
      (getDataShardOnlyM fetch dataN shardSize blob).contacted =
        List.range' (blob.Offset / shardSize)
          (if blob.ReadSize = 0 then 0
            else (blob.Offset % shardSize + blob.ReadSize + shardSize - 1) /
              shardSize)) ∧
    (∀ e, (getDataShardOnlyM fetch dataN shardSize blob).result = Except.error e →
      e = GetErr.needReconstruct ∨ e = GetErr.noEnoughData) := by
  refine ⟨?_, ?_, ?_, ?_, ?_, ?_⟩
  · rcases blobs with _ | ⟨b, _ | ⟨b2, rest⟩⟩
    · simp [fastPathTriggered]
    · simp [fastPathTriggered]
    · simp [fastPathTriggered]
  · intro h
    unfold getReadPath
    rw [if_neg (by simp [h])]
  · intro h hres
    unfold getReadPath
    rw [if_pos (by simp [h]), hres]
  · unfold getDataShardOnlyM
    by_cases hr0 : blob.ReadSize = 0
    · exact ⟨0, Nat.zero_le _, by simp [hr0]⟩
    · rw [if_neg hr0]
      rcases dsoLoop_prefix fetch shardSize
        (List.range' (blob.Offset / shardSize) (dataN - blob.Offset / shardSize))
        (blob.Offset % shardSize) blob.ReadSize [] [] with ⟨j, hj, hc⟩
      rw [List.length_range'] at hj
      exact ⟨j, hj, by rw [hc, take_range' _ _ _ hj, List.nil_append]⟩
  · intro out hres
    unfold getDataShardOnlyM at hres ⊢
    by_cases hr0 : blob.ReadSize = 0
    · simp [hr0]
    · rw [if_neg hr0] at hres ⊢
      rcases dsoLoop_success_contacted fetch shardSize hss
        (List.range' (blob.Offset / shardSize) (dataN - blob.Offset / shardSize))
        (blob.Offset % shardSize) blob.ReadSize [] [] out
        (Nat.mod_lt blob.Offset hss) hres with ⟨hj, hc⟩
      rw [if_neg hr0] at hj hc
      rw [List.length_range'] at hj
      rw [hc, take_range' _ _ _ hj, List.nil_append, if_neg hr0]
  · intro e hres
    unfold getDataShardOnlyM at hres
    by_cases hr0 : blob.ReadSize = 0
    · rw [if_pos hr0] at hres
      cases hres
    · rw [if_neg hr0] at hres
      exact dsoLoop_error fetch shardSize _ _ _ _ _ e hres

/-- Witness for C6 at a concrete read: offset 3, shard size 2, read size 3
contact exactly shards 1 and 2 of the four data shards. -/
theorem C6_data_shard_only_fast_path_witness :
    (getDataShardOnlyM (fun i so sz => some (List.replicate sz (10 * i + so)))
        4 2 ⟨1, 1, 8, 3, 3⟩).contacted =
      List.range' (3 / 2) (if (3 : Nat) = 0 then 0 else (3 % 2 + 3 + 2 - 1) / 2) :=
  (C6_data_shard_only_fast_path [⟨1, 1, 8, 3, 3⟩] 2 4 (by decide)
    (fun i so sz => some (List.replicate sz (10 * i + so)))
    (Except.error GetErr.writeFailed) ⟨1, 1, 8, 3, 3⟩).2.2.2.2.1
    [11, 20, 20] (by rfl)

/-! Counting facts about the received map, used by the success and failure
analyses of the reception loop. -/

theorem recvInsert_fresh (m : RecvMap) (k : Nat) (v : Bool)
    (h : ∀ p ∈ m, p.1 ≠ k) : recvInsert m k v = (k, v) :: m := by
  unfold recvInsert
  congr 1
  apply List.filter_eq_self.mpr
  intro p hp
  simpa using h p hp

theorem recvGood_cons (k i : Nat) (v : Bool) (m : RecvMap) :
    recvGood ((k, v) :: m) i = if k = i then v else recvGood m i := by
  simp only [recvGood, recvGet, List.find?_cons]
  by_cases h : k = i
  · subst h
    simp
  · have hb : (((k, v) : Nat × Bool).1 == i) = false := by simpa using h
    simp [hb, h]

theorem recvGood_not_mem (m : RecvMap) (k : Nat)
    (h : k ∉ m.map Prod.fst) : recvGood m k = false := by
  induction m with
  | nil => rfl
  | cons p rest ih =>
    rcases p with ⟨a, b⟩
    simp only [List.map_cons, List.mem_cons] at h
    push_neg at h
    rw [recvGood_cons, if_neg (fun hh => h.1 hh.symm)]
    exact ih h.2

theorem countP_point_update (k : Nat) (v : Bool) (g : Nat → Bool)
    (hgk : g k = false) :
    ∀ (l : List Nat), l.Nodup → k ∈ l →
      l.countP (fun i => if k = i then v else g i) =
        l.countP g + (if v then 1 else 0) := by
  intro l
  induction l with
  | nil =>
    intro _ h
    cases h
  | cons x xs ih =>
    intro hnd hk
    rw [List.countP_cons, List.countP_cons]
    by_cases hx : x = k
    · subst hx
      have hnx : x ∉ xs := (List.nodup_cons.mp hnd).1
      have hcong : xs.countP (fun i => if x = i then v else g i) = xs.countP g := by
        apply List.countP_congr
        intro a ha
        have hne : ¬x = a := fun h => hnx (h ▸ ha)
        simp [hne]
      rw [hcong, hgk]
      cases v <;> simp
    · have hkxs : k ∈ xs := by
        rcases List.mem_cons.mp hk with h | h
        · exact absurd h.symm hx
        · exact h
      rw [ih (List.nodup_cons.mp hnd).2 hkxs]
      have hne : ¬k = x := fun h => hx h.symm
      simp only [hne, if_false]
      cases v <;> cases hgx : g x <;> simp [hgx]

theorem countP_range_recvGood : ∀ (m : RecvMap) (n : Nat),
    (m.map Prod.fst).Nodup → (∀ p ∈ m, p.1 < n) →
    (List.range n).countP (fun i => recvGood m i) =
      m.countP (fun p => p.2) := by
  intro m
  induction m with
  | nil =>
    intro n _ _
    rw [List.countP_eq_zero.mpr]
    · rfl
    · intro a _
      simp [recvGood, recvGet]
  | cons p rest ih =>
    rcases p with ⟨k, v⟩
    intro n hnd hlt
    simp only [List.map_cons, List.nodup_cons] at hnd
    have hgk : recvGood rest k = false := recvGood_not_mem rest k hnd.1
    have hcong : (List.range n).countP (fun i => recvGood ((k, v) :: rest) i) =
        (List.range n).countP (fun i => if k = i then v else recvGood rest i) := by
      apply List.countP_congr
      intro a _
      rw [recvGood_cons]
    rw [hcong, countP_point_update k v _ hgk (List.range n) (List.nodup_range n)
      (List.mem_range.mpr (hlt (k, v) (List.mem_cons_self _ _)))]
    rw [ih n hnd.2 (fun p hp => hlt p (List.mem_cons_of_mem _ hp))]
    rw [List.countP_cons]

theorem recvBadCount_eq (m : RecvMap) :
    recvBadCount m + m.countP (fun p => p.2) = m.length := by
  unfold recvBadCount
  induction m with
  | nil => rfl
  | cons p rest ih =>
    rw [List.countP_cons, List.countP_cons, List.length_cons]
    cases hp : p.2 <;> simp [hp] <;> omega

theorem badAll_length (m : RecvMap) (dataN dataParityN : Nat)
    (hdp : dataN ≤ dataParityN)
    (hnd : (m.map Prod.fst).Nodup) (hlt : ∀ p ∈ m, p.1 < dataParityN) :
    ((List.range dataN).filter (fun i => !(recvGood m i)) ++
      (List.range' dataN (dataParityN - dataN)).filter
        (fun i => !(recvGood m i))).length =
      dataParityN - m.countP (fun p => p.2) := by
  have hsplit : List.range dataN ++ List.range' dataN (dataParityN - dataN) =
      List.range dataParityN := by
    rw [List.range_eq_range', List.range_eq_range']
    have h := List.range'_append 0 dataN (dataParityN - dataN) 1
    simp only [Nat.zero_add, Nat.one_mul] at h
    rw [h]
    congr 1
    omega
  rw [← List.filter_append, hsplit]
  have hgood : (List.range dataParityN).countP (fun i => recvGood m i) =
      m.countP (fun p => p.2) := countP_range_recvGood m dataParityN hnd hlt
  have hlen1 : ((List.range dataParityN).filter (fun i => !(recvGood m i))).length =
      (List.range dataParityN).countP (fun i => !(recvGood m i)) :=
    (List.countP_eq_length_filter _ _).symm
  rw [hlen1]
  have htot := List.length_eq_countP_add_countP (fun i => recvGood m i)
    (List.range dataParityN)
  rw [List.length_range, hgood] at htot
  have hcong2 : (List.range dataParityN).countP (fun i => !(recvGood m i)) =
      (List.range dataParityN).countP (fun a => decide ¬recvGood m a = true) := by
    apply List.countP_congr
    intro a _
    cases h : recvGood m a <;> simp [h]
  rw [hcong2]
  omega

theorem recvLength_le (m : RecvMap) (n : Nat)
    (hnd : (m.map Prod.fst).Nodup) (hlt : ∀ p ∈ m, p.1 < n) : m.length ≤ n := by
  have hsub : m.map Prod.fst ⊆ List.range n := by
    intro a ha
    rcases List.mem_map.mp ha with ⟨p, hp, hpe⟩
    rw [← hpe]
    exact List.mem_range.mpr (hlt p hp)
  have hl := (hnd.subperm hsub).length_le
  rw [List.length_map, List.length_range] at hl
  exact hl

/-- One reception step of readOneBlob, analysed when the failures recorded
so far (including the newly arrived outcome) stay within the parity budget:
the step either breaks out of the loop successfully, or records the outcome
and continues with the map still short of the full unit count. -/
theorem readStep_success_side
    (recon : List (List Nat) → List Nat → Option (List (List Nat)))
    (dataN dataParityN : Nat) (st : BlobLoopSt) (sd : shardData)
    (st2 : BlobLoopSt) (e : Option StepExit)
    (hdp : dataN ≤ dataParityN)
    (hrecon : ∀ sh bad, bad.length ≤ dataParityN - dataN → (recon sh bad).isSome)
    (hfresh : ∀ p ∈ st.recv, p.1 ≠ sd.index)
    (hnd : (st.recv.map Prod.fst).Nodup)
    (hsdlt : sd.index < dataParityN)
    (hklt : ∀ p ∈ st.recv, p.1 < dataParityN)
    (hbound : recvBadCount ((sd.index, sd.status) :: st.recv) ≤ dataParityN - dataN)
    (hstep : readStep recon dataN dataParityN dataParityN st sd = (st2, e)) :
    e = some StepExit.success ∨
      (e = none ∧ st2.recv = (sd.index, sd.status) :: st.recv ∧
        st.recv.length + 1 < dataParityN) := by
  have hnd2 : (((sd.index, sd.status) :: st.recv).map Prod.fst).Nodup := by
    simp only [List.map_cons]
    refine List.nodup_cons.mpr ⟨?_, hnd⟩
    intro hmem
    rcases List.mem_map.mp hmem with ⟨p, hp, hpe⟩
    exact hfresh p hp hpe
  have hklt2 : ∀ p ∈ (sd.index, sd.status) :: st.recv, p.1 < dataParityN := by
    intro p hp
    rcases List.mem_cons.mp hp with h | h
    · rw [h]
      exact hsdlt
    · exact hklt p h
  have hlenle : ((sd.index, sd.status) :: st.recv).length ≤ dataParityN :=
    recvLength_le _ _ hnd2 hklt2
  have hbadgood := recvBadCount_eq ((sd.index, sd.status) :: st.recv)
  have hst1recv : (if sd.status = true then
      { st with shards := st.shards.set sd.index sd.buffer, puts := st.puts + 1 }
    else st).recv = st.recv := by
    cases sd.status <;> rfl
  have hrecvE : recvInsert st.recv sd.index sd.status =
      (sd.index, sd.status) :: st.recv := recvInsert_fresh _ _ _ hfresh
  simp only [readStep] at hstep
  rw [hst1recv, hrecvE] at hstep
  by_cases h1 : ((sd.index, sd.status) :: st.recv).length < dataN
  · rw [if_pos h1] at hstep
    injection hstep with hA hB
    right
    refine ⟨hB.symm, ?_, ?_⟩
    · rw [← hA]
    · simp only [List.length_cons] at h1
      omega
  · rw [if_neg h1] at hstep
    by_cases h2 : ((List.range dataN).filter
        (fun i => !(recvGood ((sd.index, sd.status) :: st.recv) i))).isEmpty = true
    · rw [if_pos h2] at hstep
      injection hstep with hA hB
      exact Or.inl hB.symm
    · rw [if_neg h2] at hstep
      rw [if_neg (show ¬(dataParityN - dataN <
          recvBadCount ((sd.index, sd.status) :: st.recv)) by omega)] at hstep
      by_cases h3 : dataN + recvBadCount ((sd.index, sd.status) :: st.recv) ≤
          ((sd.index, sd.status) :: st.recv).length
      · rw [if_pos h3] at hstep
        have hball := badAll_length ((sd.index, sd.status) :: st.recv) dataN
          dataParityN hdp hnd2 hklt2
        have hlenb : (((List.range dataN).filter
            (fun i => !(recvGood ((sd.index, sd.status) :: st.recv) i))) ++
            ((List.range' dataN (dataParityN - dataN)).filter
              (fun i => !(recvGood ((sd.index, sd.status) :: st.recv) i)))).length ≤
            dataParityN - dataN := by
          rw [hball]
          omega
        split at hstep
        · injection hstep with hA hB
          exact Or.inl hB.symm
        · rename_i heq
          exact absurd (hrecon _ _ hlenb) (by rw [heq]; decide)
      · rw [if_neg h3] at hstep
        rw [if_neg (show
            ¬(dataParityN ≤ ((sd.index, sd.status) :: st.recv).length) by
          omega)] at hstep
        injection hstep with hA hB
        right
        refine ⟨hB.symm, ?_, ?_⟩
        · rw [← hA]
        · simp only [List.length_cons] at h3 hlenle hbadgood
          omega

/-- One reception step of readOneBlob, analysed when fewer than dataN units
have delivered a good shard (counting the newly arrived outcome): the step
never reconstructs, and either breaks the blob or records the outcome and
continues with the map still short of the full unit count. -/
theorem readStep_broken_side
    (recon : List (List Nat) → List Nat → Option (List (List Nat)))
    (dataN dataParityN : Nat) (st : BlobLoopSt) (sd : shardData)
    (st2 : BlobLoopSt) (e : Option StepExit)
    (hdp : dataN ≤ dataParityN)
    (hfresh : ∀ p ∈ st.recv, p.1 ≠ sd.index)
    (hnd : (st.recv.map Prod.fst).Nodup)
    (hsdlt : sd.index < dataParityN)
    (hklt : ∀ p ∈ st.recv, p.1 < dataParityN)
    (hgood : ((sd.index, sd.status) :: st.recv).countP (fun p => p.2) < dataN)
    (hstep : readStep recon dataN dataParityN dataParityN st sd = (st2, e)) :
    (e = some StepExit.broken ∧ st2.reconCalls = st.reconCalls) ∨
      (e = none ∧ st2.recv = (sd.index, sd.status) :: st.recv ∧
        st2.reconCalls = st.reconCalls ∧ st.recv.length + 1 < dataParityN) := by
  have hnd2 : (((sd.index, sd.status) :: st.recv).map Prod.fst).Nodup := by
    simp only [List.map_cons]
    refine List.nodup_cons.mpr ⟨?_, hnd⟩
    intro hmem
    rcases List.mem_map.mp hmem with ⟨p, hp, hpe⟩
    exact hfresh p hp hpe
  have hklt2 : ∀ p ∈ (sd.index, sd.status) :: st.recv, p.1 < dataParityN := by
    intro p hp
    rcases List.mem_cons.mp hp with h | h
    · rw [h]
      exact hsdlt
    · exact hklt p h
  have hlenle : ((sd.index, sd.status) :: st.recv).length ≤ dataParityN :=
    recvLength_le _ _ hnd2 hklt2
  have hbadgood := recvBadCount_eq ((sd.index, sd.status) :: st.recv)
  have hst1recv : (if sd.status = true then
      { st with shards := st.shards.set sd.index sd.buffer, puts := st.puts + 1 }
    else st).recv = st.recv := by
    cases sd.status <;> rfl
  have hrecvE : recvInsert st.recv sd.index sd.status =
      (sd.index, sd.status) :: st.recv := recvInsert_fresh _ _ _ hfresh
  simp only [readStep] at hstep
  rw [hst1recv, hrecvE] at hstep
  by_cases h1 : ((sd.index, sd.status) :: st.recv).length < dataN
  · rw [if_pos h1] at hstep
    injection hstep with hA hB
    right
    refine ⟨hB.symm, ?_, ?_, ?_⟩
    · rw [← hA]
    · rw [← hA]
      cases sd.status <;> rfl
    · simp only [List.length_cons] at h1
      omega
  · rw [if_neg h1] at hstep
    have hbne : ¬(((List.range dataN).filter
        (fun i => !(recvGood ((sd.index, sd.status) :: st.recv) i))).isEmpty = true) := by
      intro hemp
      have hnil := List.isEmpty_iff.mp hemp
      have hall : ∀ i ∈ List.range dataN,
          recvGood ((sd.index, sd.status) :: st.recv) i = true := by
        intro i hi
        have hf := List.filter_eq_nil_iff.mp hnil i hi
        cases hgi : recvGood ((sd.index, sd.status) :: st.recv) i
        · rw [hgi] at hf
          simp at hf
        · rfl
      have hcnt : (List.range dataN).countP
          (fun i => recvGood ((sd.index, sd.status) :: st.recv) i) = dataN := by
        rw [List.countP_eq_length.mpr hall, List.length_range]
      have hle : (List.range dataN).countP
          (fun i => recvGood ((sd.index, sd.status) :: st.recv) i) ≤
          (List.range dataParityN).countP
            (fun i => recvGood ((sd.index, sd.status) :: st.recv) i) :=
        (List.range_sublist.mpr hdp).countP_le _
      rw [countP_range_recvGood _ dataParityN hnd2 hklt2] at hle
      omega
    rw [if_neg hbne] at hstep
    by_cases hbs : dataParityN - dataN <
        recvBadCount ((sd.index, sd.status) :: st.recv)
    · rw [if_pos hbs] at hstep
      injection hstep with hA hB
      refine Or.inl ⟨hB.symm, ?_⟩
      rw [← hA]
      cases sd.status <;> rfl
    · rw [if_neg hbs] at hstep
      rw [if_neg (show ¬(dataN + recvBadCount ((sd.index, sd.status) :: st.recv) ≤
          ((sd.index, sd.status) :: st.recv).length) by omega)] at hstep
      rw [if_neg (show
          ¬(dataParityN ≤ ((sd.index, sd.status) :: st.recv).length) by
        omega)] at hstep
      injection hstep with hA hB
      right
      refine ⟨hB.symm, ?_, ?_, ?_⟩
      · rw [← hA]
      · rw [← hA]
        cases sd.status <;> rfl
      · simp only [List.length_cons] at hlenle hbadgood
        omega

/-- The reception loop of readOneBlob breaks out successfully when the
outcomes of all still-missing units arrive with distinct indexes and at most
the parity budget of failures among them, and the encoder reconstructs from
any sufficient set. -/
theorem readLoop_success
    (recon : List (List Nat) → List Nat → Option (List (List Nat)))
    (dataN dataParityN : Nat) (hdp : dataN ≤ dataParityN)
    (hrecon : ∀ sh bad, bad.length ≤ dataParityN - dataN → (recon sh bad).isSome) :
    ∀ (arr : List shardData) (st : BlobLoopSt),
      (st.recv.map Prod.fst).Nodup →
      (∀ p ∈ st.recv, p.1 < dataParityN) →
      (arr.map shardData.index).Nodup →
      (∀ sd ∈ arr, sd.index < dataParityN) →
      (∀ sd ∈ arr, sd.index ∉ st.recv.map Prod.fst) →
      st.recv.length + arr.length = dataParityN →
      recvBadCount st.recv + (arr.filter (fun sd => !sd.status)).length ≤
        dataParityN - dataN →
      arr ≠ [] →
      ∃ st2 rest2, readLoop recon dataN dataParityN dataParityN st arr =
        (st2, some StepExit.success, rest2) := by
  intro arr
  induction arr with
  | nil =>
    intro st _ _ _ _ _ _ _ hne
    exact absurd rfl hne
  | cons sd rest ih =>
    intro st hnd hklt handp harrlt hfresh hlen hbad _
    have hfresh0 : ∀ p ∈ st.recv, p.1 ≠ sd.index := by
      intro p hp hpe
      exact hfresh sd (List.mem_cons_self _ _) (hpe ▸ List.mem_map_of_mem Prod.fst hp)
    have hsum : recvBadCount ((sd.index, sd.status) :: st.recv) +
        (rest.filter (fun x => !x.status)).length =
        recvBadCount st.recv + ((sd :: rest).filter (fun x => !x.status)).length := by
      unfold recvBadCount
      rw [List.countP_cons]
      cases hs : sd.status <;> simp [List.filter_cons, hs]
      all_goals omega
    rcases hstep : readStep recon dataN dataParityN dataParityN st sd with ⟨stA, eA⟩
    have hbound : recvBadCount ((sd.index, sd.status) :: st.recv) ≤
        dataParityN - dataN := by
      omega
    rcases readStep_success_side recon dataN dataParityN st sd stA eA hdp hrecon
        hfresh0 hnd (harrlt sd (List.mem_cons_self _ _)) hklt hbound hstep with
      hA | ⟨hA, hrecv2, hlt2⟩
    · subst hA
      refine ⟨stA, rest, ?_⟩
      simp only [readLoop]
      rw [hstep]
    · subst hA
      have hrest : rest ≠ [] := by
        intro h
        rw [h] at hlen
        simp only [List.length_cons, List.length_nil] at hlen
        omega
      have hnd2 : (stA.recv.map Prod.fst).Nodup := by
        rw [hrecv2]
        simp only [List.map_cons]
        refine List.nodup_cons.mpr ⟨?_, hnd⟩
        intro hmem
        rcases List.mem_map.mp hmem with ⟨p, hp, hpe⟩
        exact hfresh0 p hp hpe
      have hklt2 : ∀ p ∈ stA.recv, p.1 < dataParityN := by
        rw [hrecv2]
        intro p hp
        rcases List.mem_cons.mp hp with h | h
        · rw [h]
          exact harrlt sd (List.mem_cons_self _ _)
        · exact hklt p h
      have handp2 : (rest.map shardData.index).Nodup := by
        simp only [List.map_cons, List.nodup_cons] at handp
        exact handp.2
      have harrlt2 : ∀ x ∈ rest, x.index < dataParityN :=
        fun x hx => harrlt x (List.mem_cons_of_mem _ hx)
      have hfresh2 : ∀ x ∈ rest, x.index ∉ stA.recv.map Prod.fst := by
        intro x hx hmem
        rw [hrecv2] at hmem
        simp only [List.map_cons] at hmem
        rcases List.mem_cons.mp hmem with h | h
        · simp only [List.map_cons, List.nodup_cons] at handp
          exact handp.1 (h ▸ List.mem_map_of_mem shardData.index hx)
        · exact hfresh x (List.mem_cons_of_mem _ hx) h
      have hlen2 : stA.recv.length + rest.length = dataParityN := by
        rw [hrecv2]
        simp only [List.length_cons] at hlen ⊢
        omega
      have hbad2 : recvBadCount stA.recv +
          (rest.filter (fun x => !x.status)).length ≤ dataParityN - dataN := by
        rw [hrecv2]
        omega
      obtain ⟨st3, rest3, hloop⟩ :=
        ih stA hnd2 hklt2 handp2 harrlt2 hfresh2 hlen2 hbad2 hrest
      refine ⟨st3, rest3, ?_⟩
      simp only [readLoop]
      rw [hstep]
      exact hloop

/-- The reception loop of readOneBlob breaks the blob when the outcomes of
all still-missing units arrive with distinct indexes but fewer than dataN
good shards exist in total; no reconstruction is ever attempted. -/
theorem readLoop_broken
    (recon : List (List Nat) → List Nat → Option (List (List Nat)))
    (dataN dataParityN : Nat) (hdp : dataN ≤ dataParityN) :
    ∀ (arr : List shardData) (st : BlobLoopSt),
      (st.recv.map Prod.fst).Nodup →
      (∀ p ∈ st.recv, p.1 < dataParityN) →
      (arr.map shardData.index).Nodup →
      (∀ sd ∈ arr, sd.index < dataParityN) →
      (∀ sd ∈ arr, sd.index ∉ st.recv.map Prod.fst) →
      st.recv.length + arr.length = dataParityN →
      st.recv.countP (fun p => p.2) +
        (arr.filter (fun sd => sd.status)).length < dataN →
      arr ≠ [] →
      ∃ st2 rest2, readLoop recon dataN dataParityN dataParityN st arr =
        (st2, some StepExit.broken, rest2) ∧ st2.reconCalls = st.reconCalls := by
  intro arr
  induction arr with
  | nil =>
    intro st _ _ _ _ _ _ _ hne
    exact absurd rfl hne
  | cons sd rest ih =>
    intro st hnd hklt handp harrlt hfresh hlen hgood _
    have hfresh0 : ∀ p ∈ st.recv, p.1 ≠ sd.index := by
      intro p hp hpe
      exact hfresh sd (List.mem_cons_self _ _) (hpe ▸ List.mem_map_of_mem Prod.fst hp)
    have hsum : ((sd.index, sd.status) :: st.recv).countP (fun p => p.2) +
        (rest.filter (fun x => x.status)).length =
        st.recv.countP (fun p => p.2) +
          ((sd :: rest).filter (fun x => x.status)).length := by
      rw [List.countP_cons]
      cases hs : sd.status <;> simp [List.filter_cons, hs]
      all_goals omega
    rcases hstep : readStep recon dataN dataParityN dataParityN st sd with ⟨stA, eA⟩
    have hgoodc : ((sd.index, sd.status) :: st.recv).countP (fun p => p.2) <
        dataN := by
      omega
    rcases readStep_broken_side recon dataN dataParityN st sd stA eA hdp
        hfresh0 hnd (harrlt sd (List.mem_cons_self _ _)) hklt hgoodc hstep with
      ⟨hA, hrc⟩ | ⟨hA, hrecv2, hrc, hlt2⟩
    · subst hA
      refine ⟨stA, rest, ?_, hrc⟩
      simp only [readLoop]
      rw [hstep]
    · subst hA
      have hrest : rest ≠ [] := by
        intro h
        rw [h] at hlen
        simp only [List.length_cons, List.length_nil] at hlen
        omega
      have hnd2 : (stA.recv.map Prod.fst).Nodup := by
        rw [hrecv2]
        simp only [List.map_cons]
        refine List.nodup_cons.mpr ⟨?_, hnd⟩
        intro hmem
        rcases List.mem_map.mp hmem with ⟨p, hp, hpe⟩
        exact hfresh0 p hp hpe
      have hklt2 : ∀ p ∈ stA.recv, p.1 < dataParityN := by
        rw [hrecv2]
        intro p hp
        rcases List.mem_cons.mp hp with h | h
        · rw [h]
          exact harrlt sd (List.mem_cons_self _ _)
        · exact hklt p h
      have handp2 : (rest.map shardData.index).Nodup := by
        simp only [List.map_cons, List.nodup_cons] at handp
        exact handp.2
      have harrlt2 : ∀ x ∈ rest, x.index < dataParityN :=
        fun x hx => harrlt x (List.mem_cons_of_mem _ hx)
      have hfresh2 : ∀ x ∈ rest, x.index ∉ stA.recv.map Prod.fst := by
        intro x hx hmem
        rw [hrecv2] at hmem
        simp only [List.map_cons] at hmem
        rcases List.mem_cons.mp hmem with h | h
        · simp only [List.map_cons, List.nodup_cons] at handp
          exact handp.1 (h ▸ List.mem_map_of_mem shardData.index hx)
        · exact hfresh x (List.mem_cons_of_mem _ hx) h
      have hlen2 : stA.recv.length + rest.length = dataParityN := by
        rw [hrecv2]
        simp only [List.length_cons] at hlen ⊢
        omega
      have hgood2 : stA.recv.countP (fun p => p.2) +
          (rest.filter (fun x => x.status)).length < dataN := by
        rw [hrecv2]
        omega
      obtain ⟨st3, rest3, hloop, hrc3⟩ :=
        ih stA hnd2 hklt2 handp2 harrlt2 hfresh2 hlen2 hgood2 hrest
      refine ⟨st3, rest3, ?_, by rw [hrc3, hrc]⟩
      simp only [readLoop]
      rw [hstep]
      exact hloop

theorem take_glue (a b : List Nat) (toRead : Nat) :
    a.take (minU64 toRead a.length) ++ b.take (toRead - minU64 toRead a.length) =
      (a ++ b).take toRead := by
  rw [List.take_append_eq_append_take, minU64_eq_min]
  rcases Nat.le_total toRead a.length with hc | hc
  · rw [Nat.min_eq_left hc]
    congr 1
    congr 1
    omega
  · rw [Nat.min_eq_right hc]
    congr 1
    rw [List.take_length, List.take_of_length_le hc]

/-- The copy loop of Get emits exactly the byte range
[off, off+toRead) of the concatenated shards. -/
theorem writeShardsLoop_eq : ∀ (shards : List (List Nat)) (off toRead : Nat),
    writeShardsLoop shards off toRead = (shards.flatten.drop off).take toRead := by
  intro shards
  induction shards with
  | nil =>
    intro off toRead
    simp [writeShardsLoop]
  | cons buf rest ih =>
    intro off toRead
    simp only [writeShardsLoop]
    by_cases h0 : toRead = 0
    · rw [if_pos h0, h0]
      simp
    · rw [if_neg h0]
      by_cases h1 : buf.length ≤ off
      · rw [if_pos h1, ih]
        rw [List.flatten_cons, List.drop_append_eq_append_drop,
          List.drop_eq_nil_of_le h1, List.nil_append]
      · rw [if_neg h1]
        rw [ih, List.drop_zero, List.flatten_cons,
          List.drop_append_eq_append_drop,
          (show off - buf.length = 0 by omega), List.drop_zero]
        rw [show buf.length - off = (buf.drop off).length from
          (List.length_drop _ _).symm]
        exact take_glue (buf.drop off) rest.flatten toRead

/-! Facts about the initial loop state and launched arrivals of readOneBlob. -/

theorem foldl_recvInsert_true : ∀ (l : List Nat) (m : RecvMap),
    l.Nodup → (∀ i ∈ l, i ∉ m.map Prod.fst) →
    l.foldl (fun m i => recvInsert m i true) m =
      (l.reverse.map (fun i => (i, true))) ++ m := by
  intro l
  induction l with
  | nil =>
    intro m _ _
    rfl
  | cons x xs ih =>
    intro m hnd hfr
    rw [List.foldl_cons]
    have hx : recvInsert m x true = (x, true) :: m :=
      recvInsert_fresh m x true (by
        intro p hp hpe
        exact hfr x (List.mem_cons_self _ _) (hpe ▸ List.mem_map_of_mem Prod.fst hp))
    have hfr2 : ∀ i ∈ xs, i ∉ ((x, true) :: m).map Prod.fst := by
      intro i hi hmem
      simp only [List.map_cons] at hmem
      rcases List.mem_cons.mp hmem with h | h
      · exact (List.nodup_cons.mp hnd).1 (h ▸ hi)
      · exact hfr i (List.mem_cons_of_mem _ hi) h
    rw [hx, ih ((x, true) :: m) (List.nodup_cons.mp hnd).2 hfr2]
    rw [List.reverse_cons, List.map_append, List.append_assoc]
    rfl

theorem emptyDataShardIndexes_nodup (sizes : BufferSizes) :
    (emptyDataShardIndexes sizes).Nodup := by
  simp only [emptyDataShardIndexes]
  split
  · exact List.nodup_nil
  · exact List.nodup_range' _ _

theorem blobInitSt_recv (sizes : BufferSizes) (shards0 : List (List Nat)) :
    (blobInitSt sizes shards0).recv =
      (emptyDataShardIndexes sizes).reverse.map (fun i => (i, true)) := by
  unfold blobInitSt
  rw [foldl_recvInsert_true _ _ (emptyDataShardIndexes_nodup sizes)
    (by intro i _ h; simp at h)]
  simp

theorem blobInitSt_keys (sizes : BufferSizes) (shards0 : List (List Nat)) :
    (blobInitSt sizes shards0).recv.map Prod.fst =
      (emptyDataShardIndexes sizes).reverse := by
  rw [blobInitSt_recv, List.map_map]
  have h : (Prod.fst ∘ fun i : Nat => (i, true)) = id := rfl
  rw [h, List.map_id]

theorem blobInitSt_length (sizes : BufferSizes) (shards0 : List (List Nat)) :
    (blobInitSt sizes shards0).recv.length =
      (emptyDataShardIndexes sizes).length := by
  rw [blobInitSt_recv]
  simp

theorem blobInitSt_badCount (sizes : BufferSizes) (shards0 : List (List Nat)) :
    recvBadCount (blobInitSt sizes shards0).recv = 0 := by
  rw [blobInitSt_recv]
  unfold recvBadCount
  rw [List.countP_eq_zero]
  intro p hp
  rcases List.mem_map.mp hp with ⟨i, _, hpe⟩
  rw [← hpe]
  simp

theorem blobInitSt_goods (sizes : BufferSizes) (shards0 : List (List Nat)) :
    (blobInitSt sizes shards0).recv.countP (fun p => p.2) =
      (emptyDataShardIndexes sizes).length := by
  rw [blobInitSt_recv]
  rw [List.countP_eq_length.mpr]
  · simp
  · intro p hp
    rcases List.mem_map.mp hp with ⟨i, _, hpe⟩
    rw [← hpe]

theorem blobFetched_indexes (sizes : BufferSizes) (shards0 : List (List Nat))
    (fetch : Nat → ShardFetchOutcome) (order : List sortedVuid) :
    ((blobFetched sizes shards0 fetch order).map (fun r => r.1)).map
        shardData.index =
      (launchedVuids sizes order).map sortedVuid.index := by
  unfold blobFetched
  rw [List.map_map, List.map_map]
  apply List.map_congr_left
  intro v _
  exact readOneShardM_index _ _ _

theorem blobArr_fail_count (sizes : BufferSizes) (shards0 : List (List Nat))
    (fetch : Nat → ShardFetchOutcome) (order : List sortedVuid) :
    (((blobFetched sizes shards0 fetch order).map (fun r => r.1)).filter
      (fun sd => !sd.status)).length =
    ((blobFetched sizes shards0 fetch order).filter
      (fun r => !r.1.status)).length := by
  generalize blobFetched sizes shards0 fetch order = l
  induction l with
  | nil => rfl
  | cons x xs ih =>
    simp only [List.map_cons, List.filter_cons]
    cases h : x.1.status <;> simp [h, ih]

theorem blobArr_good_count (sizes : BufferSizes) (shards0 : List (List Nat))
    (fetch : Nat → ShardFetchOutcome) (order : List sortedVuid) :
    (((blobFetched sizes shards0 fetch order).map (fun r => r.1)).filter
      (fun sd => sd.status)).length =
    ((blobFetched sizes shards0 fetch order).filter
      (fun r => r.1.status)).length := by
  generalize blobFetched sizes shards0 fetch order = l
  induction l with
  | nil => rfl
  | cons x xs ih =>
    simp only [List.map_cons, List.filter_cons]
    cases h : x.1.status <;> simp [h, ih]

theorem blobArr_length (sizes : BufferSizes) (shards0 : List (List Nat))
    (fetch : Nat → ShardFetchOutcome) (order : List sortedVuid) :
    ((blobFetched sizes shards0 fetch order).map (fun r => r.1)).length =
      (launchedVuids sizes order).length := by
  unfold blobFetched
  simp

/-- C1: for a blob read with dataN data and dataParityN − dataN parity units,
when the read order covers every non-empty unit index exactly once, at most
the parity budget of the launched reads fail to deliver a good shard, and the
EC encoder reconstructs from any set missing at most that budget, readOneBlob
breaks out of its reception loop successfully (closing the stop signal) and
returns the assembled shard matrix, and the copy loop of Get hands the writer
exactly the requested byte range [Offset, Offset+ReadSize) of it. -/
theorem C1_at_most_M_failures_succeeds
    (recon : List (List Nat) → List Nat → Option (List (List Nat)))
    (clusterID : Nat) (blob : blobGetArgs) (dataN dataParityN : Nat)
    (sizes : BufferSizes) (shards0 : List (List Nat))
    (fetch : Nat → ShardFetchOutcome) (order : List sortedVuid)
    (hdp : dataN ≤ dataParityN)
    (hrecon : ∀ sh bad, bad.length ≤ dataParityN - dataN → (recon sh bad).isSome)
    (hemp : ∀ i ∈ emptyDataShardIndexes sizes, i < dataN)
    (hnodup : ((launchedVuids sizes order).map sortedVuid.index).Nodup)
    (hbound : ∀ v ∈ launchedVuids sizes order, v.index < dataParityN)
    (hcount : (emptyDataShardIndexes sizes).length +
      (launchedVuids sizes order).length = dataParityN)
    (hfail : ((blobFetched sizes shards0 fetch order).filter
      (fun r => !r.1.status)).length ≤ dataParityN - dataN)
    (hne : launchedVuids sizes order ≠ []) :
    ∃ sh, (readOneBlobM recon clusterID blob dataN dataParityN dataParityN sizes
        shards0 fetch order).result = Except.ok sh ∧
      (readOneBlobM recon clusterID blob dataN dataParityN dataParityN sizes
        shards0 fetch order).stopClosed = true ∧
      writeShardsLoop sh blob.Offset blob.ReadSize =
        (sh.flatten.drop blob.Offset).take blob.ReadSize := by
  have h1 : ((blobInitSt sizes shards0).recv.map Prod.fst).Nodup := by
    rw [blobInitSt_keys]
    exact List.nodup_reverse.mpr (emptyDataShardIndexes_nodup sizes)
  have h2 : ∀ p ∈ (blobInitSt sizes shards0).recv, p.1 < dataParityN := by
    rw [blobInitSt_recv]
    intro p hp
    rcases List.mem_map.mp hp with ⟨i, hi, hpe⟩
    rw [← hpe]
    exact lt_of_lt_of_le (hemp i (List.mem_reverse.mp hi)) hdp
  have h3 : (((blobFetched sizes shards0 fetch order).map
      (fun r => r.1)).map shardData.index).Nodup := by
    rw [blobFetched_indexes]
    exact hnodup
  have h4 : ∀ sd ∈ (blobFetched sizes shards0 fetch order).map (fun r => r.1),
      sd.index < dataParityN := by
    intro sd hsd
    have hm : sd.index ∈ (launchedVuids sizes order).map sortedVuid.index := by
      rw [← blobFetched_indexes sizes shards0 fetch order]
      exact List.mem_map_of_mem shardData.index hsd
    rcases List.mem_map.mp hm with ⟨v, hv, hve⟩
    rw [← hve]
    exact hbound v hv
  have h5 : ∀ sd ∈ (blobFetched sizes shards0 fetch order).map (fun r => r.1),
      sd.index ∉ (blobInitSt sizes shards0).recv.map Prod.fst := by
    intro sd hsd hmem
    rw [blobInitSt_keys] at hmem
    have hm : sd.index ∈ (launchedVuids sizes order).map sortedVuid.index := by
      rw [← blobFetched_indexes sizes shards0 fetch order]
      exact List.mem_map_of_mem shardData.index hsd
    rcases List.mem_map.mp hm with ⟨v, hv, hve⟩
    exact launchedVuids_index_not_empty sizes order v hv
      (hve ▸ List.mem_reverse.mp hmem)
  have h6 : (blobInitSt sizes shards0).recv.length +
      ((blobFetched sizes shards0 fetch order).map (fun r => r.1)).length =
      dataParityN := by
    rw [blobInitSt_length, blobArr_length]
    exact hcount
  have h7 : recvBadCount (blobInitSt sizes shards0).recv +
      (((blobFetched sizes shards0 fetch order).map (fun r => r.1)).filter
        (fun sd => !sd.status)).length ≤ dataParityN - dataN := by
    rw [blobInitSt_badCount, blobArr_fail_count]
    omega
  have h8 : (blobFetched sizes shards0 fetch order).map (fun r => r.1) ≠ [] := by
    intro h
    rw [List.map_eq_nil_iff] at h
    unfold blobFetched at h
    rw [List.map_eq_nil_iff] at h
    exact hne h
  obtain ⟨st2, rest2, hloop⟩ := readLoop_success recon dataN dataParityN hdp hrecon
    ((blobFetched sizes shards0 fetch order).map (fun r => r.1))
    (blobInitSt sizes shards0) h1 h2 h3 h4 h5 h6 h7 h8
  refine ⟨st2.shards, ?_, ?_, writeShardsLoop_eq _ _ _⟩
  · rw [readOneBlobM_result, hloop]
  · rw [readOneBlobM_stopClosed, hloop]
    rfl

/-- C1 witness: a concrete 2+1 read in which all three units deliver a good
shard; readOneBlob returns ok and the copy loop emits the requested range. -/
theorem C1_at_most_M_failures_succeeds_witness :
    ∃ sh, (readOneBlobM (fun sh _ => some sh) 7 ⟨3, 4, 4, 1, 2⟩ 2 3 3
        ⟨2, 4, 4⟩ [[0, 0], [0, 0], [0, 0]]
        (fun _ => ShardFetchOutcome.body [5, 6])
        [⟨0, 10, 20, "h0"⟩, ⟨1, 11, 21, "h1"⟩, ⟨2, 12, 22, "h2"⟩]).result =
          Except.ok sh ∧
      (readOneBlobM (fun sh _ => some sh) 7 ⟨3, 4, 4, 1, 2⟩ 2 3 3
        ⟨2, 4, 4⟩ [[0, 0], [0, 0], [0, 0]]
        (fun _ => ShardFetchOutcome.body [5, 6])
        [⟨0, 10, 20, "h0"⟩, ⟨1, 11, 21, "h1"⟩, ⟨2, 12, 22, "h2"⟩]).stopClosed =
          true ∧
      writeShardsLoop sh 1 2 = (sh.flatten.drop 1).take 2 := by
  have h := C1_at_most_M_failures_succeeds (fun sh _ => some sh) 7
    ⟨3, 4, 4, 1, 2⟩ 2 3 ⟨2, 4, 4⟩ [[0, 0], [0, 0], [0, 0]]
    (fun _ => ShardFetchOutcome.body [5, 6])
    [⟨0, 10, 20, "h0"⟩, ⟨1, 11, 21, "h1"⟩, ⟨2, 12, 22, "h2"⟩]
    (by decide) (fun _ _ _ => rfl) (by decide) (by decide) (by decide)
    (by decide) (by decide) (by decide)
  exact h

/-- C2: when fewer than dataN good shards exist in total — strictly more than
the parity budget of units fail — readOneBlob closes the stop signal, makes
no reconstruction attempt, and fails the blob with a BrokenBlob error naming
(cluster, vid, bid). -/
theorem C2_more_than_M_failures_broken
    (recon : List (List Nat) → List Nat → Option (List (List Nat)))
    (clusterID : Nat) (blob : blobGetArgs) (dataN dataParityN : Nat)
    (sizes : BufferSizes) (shards0 : List (List Nat))
    (fetch : Nat → ShardFetchOutcome) (order : List sortedVuid)
    (hdp : dataN ≤ dataParityN)
    (hemp : ∀ i ∈ emptyDataShardIndexes sizes, i < dataN)
    (hnodup : ((launchedVuids sizes order).map sortedVuid.index).Nodup)
    (hbound : ∀ v ∈ launchedVuids sizes order, v.index < dataParityN)
    (hcount : (emptyDataShardIndexes sizes).length +
      (launchedVuids sizes order).length = dataParityN)
    (hgood : (emptyDataShardIndexes sizes).length +
      ((blobFetched sizes shards0 fetch order).filter
        (fun r => r.1.status)).length < dataN)
    (hne : launchedVuids sizes order ≠ []) :
    (readOneBlobM recon clusterID blob dataN dataParityN dataParityN sizes
        shards0 fetch order).result =
      Except.error (GetErr.brokenBlob clusterID blob.Vid blob.Bid) ∧
    (readOneBlobM recon clusterID blob dataN dataParityN dataParityN sizes
        shards0 fetch order).stopClosed = true ∧
    (readOneBlobM recon clusterID blob dataN dataParityN dataParityN sizes
        shards0 fetch order).reconCalls = 0 := by
  have h1 : ((blobInitSt sizes shards0).recv.map Prod.fst).Nodup := by
    rw [blobInitSt_keys]
    exact List.nodup_reverse.mpr (emptyDataShardIndexes_nodup sizes)
  have h2 : ∀ p ∈ (blobInitSt sizes shards0).recv, p.1 < dataParityN := by
    rw [blobInitSt_recv]
    intro p hp
    rcases List.mem_map.mp hp with ⟨i, hi, hpe⟩
    rw [← hpe]
    exact lt_of_lt_of_le (hemp i (List.mem_reverse.mp hi)) hdp
  have h3 : (((blobFetched sizes shards0 fetch order).map
      (fun r => r.1)).map shardData.index).Nodup := by
    rw [blobFetched_indexes]
    exact hnodup
  have h4 : ∀ sd ∈ (blobFetched sizes shards0 fetch order).map (fun r => r.1),
      sd.index < dataParityN := by
    intro sd hsd
    have hm : sd.index ∈ (launchedVuids sizes order).map sortedVuid.index := by
      rw [← blobFetched_indexes sizes shards0 fetch order]
      exact List.mem_map_of_mem shardData.index hsd
    rcases List.mem_map.mp hm with ⟨v, hv, hve⟩
    rw [← hve]
    exact hbound v hv
  have h5 : ∀ sd ∈ (blobFetched sizes shards0 fetch order).map (fun r => r.1),
      sd.index ∉ (blobInitSt sizes shards0).recv.map Prod.fst := by
    intro sd hsd hmem
    rw [blobInitSt_keys] at hmem
    have hm : sd.index ∈ (launchedVuids sizes order).map sortedVuid.index := by
      rw [← blobFetched_indexes sizes shards0 fetch order]
      exact List.mem_map_of_mem shardData.index hsd
    rcases List.mem_map.mp hm with ⟨v, hv, hve⟩
    exact launchedVuids_index_not_empty sizes order v hv
      (hve ▸ List.mem_reverse.mp hmem)
  have h6 : (blobInitSt sizes shards0).recv.length +
      ((blobFetched sizes shards0 fetch order).map (fun r => r.1)).length =
      dataParityN := by
    rw [blobInitSt_length, blobArr_length]
    exact hcount
  have h7 : (blobInitSt sizes shards0).recv.countP (fun p => p.2) +
      (((blobFetched sizes shards0 fetch order).map (fun r => r.1)).filter
        (fun sd => sd.status)).length < dataN := by
    rw [blobInitSt_goods, blobArr_good_count]
    omega
  have h8 : (blobFetched sizes shards0 fetch order).map (fun r => r.1) ≠ [] := by
    intro h
    rw [List.map_eq_nil_iff] at h
    unfold blobFetched at h
    rw [List.map_eq_nil_iff] at h
    exact hne h
  obtain ⟨st2, rest2, hloop, hrc⟩ := readLoop_broken recon dataN dataParityN hdp
    ((blobFetched sizes shards0 fetch order).map (fun r => r.1))
    (blobInitSt sizes shards0) h1 h2 h3 h4 h5 h6 h7 h8
  refine ⟨?_, ?_, ?_⟩
  · rw [readOneBlobM_result, hloop]
  · rw [readOneBlobM_stopClosed, hloop]
    rfl
  · rw [readOneBlobM_reconCalls, hloop]
    rw [hrc]
    rfl

/-- C2 witness: a concrete 2+1 read in which no unit delivers a good shard;
readOneBlob fails with BrokenBlob (7, 3, 4), closes the stop signal, and
never calls the reconstructor. -/
theorem C2_more_than_M_failures_broken_witness :
    (readOneBlobM (fun sh _ => some sh) 7 ⟨3, 4, 4, 1, 2⟩ 2 3 3
        ⟨2, 4, 4⟩ [[0, 0], [0, 0], [0, 0]]
        (fun _ => ShardFetchOutcome.transportErr)
        [⟨0, 10, 20, "h0"⟩, ⟨1, 11, 21, "h1"⟩, ⟨2, 12, 22, "h2"⟩]).result =
      Except.error (GetErr.brokenBlob 7 3 4) ∧
    (readOneBlobM (fun sh _ => some sh) 7 ⟨3, 4, 4, 1, 2⟩ 2 3 3
        ⟨2, 4, 4⟩ [[0, 0], [0, 0], [0, 0]]
        (fun _ => ShardFetchOutcome.transportErr)
        [⟨0, 10, 20, "h0"⟩, ⟨1, 11, 21, "h1"⟩, ⟨2, 12, 22, "h2"⟩]).stopClosed =
      true ∧
    (readOneBlobM (fun sh _ => some sh) 7 ⟨3, 4, 4, 1, 2⟩ 2 3 3
        ⟨2, 4, 4⟩ [[0, 0], [0, 0], [0, 0]]
        (fun _ => ShardFetchOutcome.transportErr)
        [⟨0, 10, 20, "h0"⟩, ⟨1, 11, 21, "h1"⟩, ⟨2, 12, 22, "h2"⟩]).reconCalls =
      0 := by
  have h := C2_more_than_M_failures_broken (fun sh _ => some sh) 7
    ⟨3, 4, 4, 1, 2⟩ 2 3 ⟨2, 4, 4⟩ [[0, 0], [0, 0], [0, 0]]
    (fun _ => ShardFetchOutcome.transportErr)
    [⟨0, 10, 20, "h0"⟩, ⟨1, 11, 21, "h1"⟩, ⟨2, 12, 22, "h2"⟩]
    (by decide) (by decide) (by decide) (by decide) (by decide) (by decide)
    (by decide)
  exact h

/-! Pool-buffer accounting of the reception loop and the Get pipeline. -/

theorem readStep_puts
    (recon : List (List Nat) → List Nat → Option (List (List Nat)))
    (dataN dataParityN numVuids : Nat) (st : BlobLoopSt) (sd : shardData) :
    (readStep recon dataN dataParityN numVuids st sd).1.puts =
      st.puts + (if sd.status then 1 else 0) := by
  unfold readStep
  cases hs : sd.status
  · simp only [hs, Bool.false_eq_true, if_false]
    repeat' split
    all_goals rfl
  · simp only [hs, if_true]
    repeat' split
    all_goals rfl

theorem readLoop_puts
    (recon : List (List Nat) → List Nat → Option (List (List Nat)))
    (dataN dataParityN numVuids : Nat) :
    ∀ (arr : List shardData) (st st2 : BlobLoopSt) (e : Option StepExit)
      (rest : List shardData),
      readLoop recon dataN dataParityN numVuids st arr = (st2, e, rest) →
      st2.puts + (rest.filter (fun sd => sd.status)).length =
        st.puts + (arr.filter (fun sd => sd.status)).length := by
  intro arr
  induction arr with
  | nil =>
    intro st st2 e rest h
    simp only [readLoop] at h
    injection h with h1 h2
    injection h2 with h2 h3
    subst h1
    subst h3
    rfl
  | cons sd rest0 ih =>
    intro st st2 e rest h
    simp only [readLoop] at h
    split at h
    · rename_i stA e2 heq
      have hputs2 : stA.puts = st.puts + (if sd.status then 1 else 0) := by
        have hp := readStep_puts recon dataN dataParityN numVuids st sd
        rw [heq] at hp
        exact hp
      injection h with h1 h2
      injection h2 with h2 h3
      subst h1
      subst h3
      rw [hputs2]
      cases hs : sd.status <;> simp [List.filter_cons, hs]
      all_goals omega
    · rename_i stA heq
      have hputs2 : stA.puts = st.puts + (if sd.status then 1 else 0) := by
        have hp := readStep_puts recon dataN dataParityN numVuids st sd
        rw [heq] at hp
        exact hp
      have hih := ih stA st2 e rest h
      rw [hih, hputs2]
      cases hs : sd.status <;> simp [List.filter_cons, hs]
      all_goals omega

theorem readOneShardM_alloc_put (s i : Nat) (oc : ShardFetchOutcome) :
    (readOneShardM s i oc).2.1 =
      (readOneShardM s i oc).2.2 +
        (if (readOneShardM s i oc).1.status then 1 else 0) := by
  cases oc with
  | transportErr => rfl
  | canceled => rfl
  | allocFail => rfl
  | body b =>
    by_cases h : b.length < s <;> simp [readOneShardM, h]

theorem sum_alloc_eq_puts_plus_good :
    ∀ (l : List sortedVuid) (f : sortedVuid → shardData × Nat × Nat),
      (∀ v ∈ l, (f v).2.1 = (f v).2.2 + (if (f v).1.status then 1 else 0)) →
      ((l.map f).map (fun r => r.2.1)).sum =
        ((l.map f).map (fun r => r.2.2)).sum +
          (((l.map f).map (fun r => r.1)).filter (fun sd => sd.status)).length := by
  intro l
  induction l with
  | nil =>
    intro f _
    rfl
  | cons v vs ih =>
    intro f hf
    have h := hf v (List.mem_cons_self _ _)
    have hih := ih f (fun x hx => hf x (List.mem_cons_of_mem _ hx))
    simp only [List.map_cons, List.sum_cons, List.filter_cons]
    cases hs : (f v).1.status
    · rw [hs] at h
      simp only [Bool.false_eq_true, if_false, Nat.add_zero] at h
      simp only [hs, Bool.false_eq_true, if_false]
      omega
    · rw [hs] at h
      simp only [if_true] at h
      simp only [hs, if_true, List.length_cons]
      omega

/-- Inside one readOneBlob call every pool buffer acquired by a shard reader
is returned exactly once: by the reader itself on a short body, by the
reception loop swap for a consumed good shard, or by the background drain
goroutine for a late good shard. -/
theorem readOneBlobM_allocs_eq_puts
    (recon : List (List Nat) → List Nat → Option (List (List Nat)))
    (clusterID : Nat) (blob : blobGetArgs) (dataN dataParityN numVuids : Nat)
    (sizes : BufferSizes) (shards0 : List (List Nat))
    (fetch : Nat → ShardFetchOutcome) (order : List sortedVuid) :
    (readOneBlobM recon clusterID blob dataN dataParityN numVuids sizes shards0
      fetch order).allocs =
    (readOneBlobM recon clusterID blob dataN dataParityN numVuids sizes shards0
      fetch order).puts := by
  rw [readOneBlobM_allocs, readOneBlobM_puts]
  rcases hloop : readLoop recon dataN dataParityN numVuids (blobInitSt sizes shards0)
    ((blobFetched sizes shards0 fetch order).map (fun r => r.1)) with ⟨st2, e, rest⟩
  rw [hloop]
  dsimp only
  have hlp := readLoop_puts recon dataN dataParityN numVuids
    ((blobFetched sizes shards0 fetch order).map (fun r => r.1))
    (blobInitSt sizes shards0) st2 e rest hloop
  have hinit : (blobInitSt sizes shards0).puts = 0 := rfl
  rw [hinit] at hlp
  have hsum := sum_alloc_eq_puts_plus_good (launchedVuids sizes order)
    (fun v => readOneShardM (shards0.headD []).length v.index (fetch v.index))
    (fun v _ => readOneShardM_alloc_put _ _ _)
  simp only [blobFetched] at hlp ⊢
  omega

/-- The ledger of the Get pipeline balances whenever the caller writer never
fails, or the producer goroutine is never ahead of the consumer. -/
theorem getPipelineLedger_balance
    (recon : List (List Nat) → List Nat → Option (List (List Nat)))
    (clusterID dataN dataParityN numVuids : Nat) (sizes : BufferSizes)
    (shards0 : List (List Nat)) (writerFailIdx : Option Nat) (ahead : Nat)
    (h : writerFailIdx = none ∨ ahead = 0) :
    ∀ (blobs : List (blobGetArgs × (Nat → ShardFetchOutcome) × List sortedVuid))
      (k : Nat),
      (getPipelineLedger recon clusterID dataN dataParityN numVuids sizes shards0
        writerFailIdx ahead blobs k).allocs =
      (getPipelineLedger recon clusterID dataN dataParityN numVuids sizes shards0
        writerFailIdx ahead blobs k).puts := by
  intro blobs
  induction blobs with
  | nil =>
    intro k
    rfl
  | cons b rest ih =>
    intro k
    rcases b with ⟨blob, fetch, order⟩
    have hbal := readOneBlobM_allocs_eq_puts recon clusterID blob dataN
      dataParityN numVuids sizes shards0 fetch order
    simp only [getPipelineLedger]
    split
    · show dataParityN + (readOneBlobM recon clusterID blob dataN dataParityN
          numVuids sizes shards0 fetch order).allocs =
        (readOneBlobM recon clusterID blob dataN dataParityN numVuids sizes
          shards0 fetch order).puts + dataParityN
      omega
    · by_cases hw : writerFailIdx = some k
      · rcases h with h | h
        · rw [h] at hw
          simp at hw
        · rw [if_pos hw]
          subst h
          have hpa : producerAheadLedger recon clusterID dataN dataParityN
              numVuids sizes shards0 0 rest = (0, 0) := by
            cases rest <;> rfl
          rw [hpa]
          show dataParityN + (readOneBlobM recon clusterID blob dataN
              dataParityN numVuids sizes shards0 fetch order).allocs + 0 =
            (readOneBlobM recon clusterID blob dataN dataParityN numVuids
              sizes shards0 fetch order).puts + dataParityN + 0
          omega
      · rw [if_neg hw]
        have hr := ih (k + 1)
        show dataParityN + (readOneBlobM recon clusterID blob dataN dataParityN
            numVuids sizes shards0 fetch order).allocs +
          (getPipelineLedger recon clusterID dataN dataParityN numVuids sizes
            shards0 writerFailIdx ahead rest (k + 1)).allocs =
          (readOneBlobM recon clusterID blob dataN dataParityN numVuids sizes
            shards0 fetch order).puts + dataParityN +
          (getPipelineLedger recon clusterID dataN dataParityN numVuids sizes
            shards0 writerFailIdx ahead rest (k + 1)).puts
        omega

/-- C3 counterexample: a Get over two blobs, both read successfully, whose
writer fails on the first blob while the producer has completed the second
(ahead = 1).  The consumer closes closeCh and the producer drops the second
blob on the closed-channel select without returning its three shard buffers:
12 buffers are acquired but only 9 are returned. -/
theorem C3_buffer_balance_counterexample :
    (getPipelineLedger (fun s _ => some s) 1 2 3 3 ⟨1, 2, 2⟩ [[9], [9], [9]]
        (some 0) 1
        [(⟨3, 8, 2, 0, 2⟩, fun _ => ShardFetchOutcome.body [5],
            [⟨0, 0, 0, ""⟩, ⟨1, 1, 1, ""⟩, ⟨2, 2, 2, ""⟩]),
          (⟨3, 9, 2, 0, 2⟩, fun _ => ShardFetchOutcome.body [5],
            [⟨0, 0, 0, ""⟩, ⟨1, 1, 1, ""⟩, ⟨2, 2, 2, ""⟩])] 0).allocs = 12 ∧
    (getPipelineLedger (fun s _ => some s) 1 2 3 3 ⟨1, 2, 2⟩ [[9], [9], [9]]
        (some 0) 1
        [(⟨3, 8, 2, 0, 2⟩, fun _ => ShardFetchOutcome.body [5],
            [⟨0, 0, 0, ""⟩, ⟨1, 1, 1, ""⟩, ⟨2, 2, 2, ""⟩]),
          (⟨3, 9, 2, 0, 2⟩, fun _ => ShardFetchOutcome.body [5],
            [⟨0, 0, 0, ""⟩, ⟨1, 1, 1, ""⟩, ⟨2, 2, 2, ""⟩])] 0).puts = 9 := by
  exact ⟨rfl, rfl⟩

/-- C3 (amended): every pool buffer acquired inside the shard readers is
returned exactly once on every path of readOneBlob itself — shard failure,
blob failure, reconstruction success, and late arrivals drained by the
background goroutine — and the ledger of the whole Get pipeline (the N+M
shard buffers per blob included) balances on every execution in which the
caller writer never fails, or the producer goroutine never runs ahead of the
consumer.  The unqualified original claim fails on writer-failure
cancellation with a completed blob in flight. -/
theorem C3_buffer_balance_amended
    (recon : List (List Nat) → List Nat → Option (List (List Nat)))
    (clusterID : Nat) (blob : blobGetArgs) (dataN dataParityN numVuids : Nat)
    (sizes : BufferSizes) (shards0 : List (List Nat))
    (fetch : Nat → ShardFetchOutcome) (order : List sortedVuid)
    (writerFailIdx : Option Nat) (ahead : Nat)
    (blobs : List (blobGetArgs × (Nat → ShardFetchOutcome) × List sortedVuid))
    (k : Nat) (h : writerFailIdx = none ∨ ahead = 0) :
    (readOneBlobM recon clusterID blob dataN dataParityN numVuids sizes shards0
        fetch order).allocs =
      (readOneBlobM recon clusterID blob dataN dataParityN numVuids sizes
        shards0 fetch order).puts ∧
    (getPipelineLedger recon clusterID dataN dataParityN numVuids sizes shards0
        writerFailIdx ahead blobs k).allocs =
      (getPipelineLedger recon clusterID dataN dataParityN numVuids sizes
        shards0 writerFailIdx ahead blobs k).puts :=
  ⟨readOneBlobM_allocs_eq_puts recon clusterID blob dataN dataParityN numVuids
      sizes shards0 fetch order,
    getPipelineLedger_balance recon clusterID dataN dataParityN numVuids sizes
      shards0 writerFailIdx ahead h blobs k⟩

/-- C3 witness: the same two-blob pipeline as the counterexample but with a
writer that never fails balances its ledger, as does the blob read itself. -/
theorem C3_buffer_balance_amended_witness :
    (readOneBlobM (fun s _ => some s) 1 ⟨3, 8, 2, 0, 2⟩ 2 3 3 ⟨1, 2, 2⟩
        [[9], [9], [9]] (fun _ => ShardFetchOutcome.body [5])
        [⟨0, 0, 0, ""⟩, ⟨1, 1, 1, ""⟩, ⟨2, 2, 2, ""⟩]).allocs =
      (readOneBlobM (fun s _ => some s) 1 ⟨3, 8, 2, 0, 2⟩ 2 3 3 ⟨1, 2, 2⟩
        [[9], [9], [9]] (fun _ => ShardFetchOutcome.body [5])
        [⟨0, 0, 0, ""⟩, ⟨1, 1, 1, ""⟩, ⟨2, 2, 2, ""⟩]).puts ∧
    (getPipelineLedger (fun s _ => some s) 1 2 3 3 ⟨1, 2, 2⟩ [[9], [9], [9]]
        none 1
        [(⟨3, 8, 2, 0, 2⟩, fun _ => ShardFetchOutcome.body [5],
            [⟨0, 0, 0, ""⟩, ⟨1, 1, 1, ""⟩, ⟨2, 2, 2, ""⟩]),
          (⟨3, 9, 2, 0, 2⟩, fun _ => ShardFetchOutcome.body [5],
            [⟨0, 0, 0, ""⟩, ⟨1, 1, 1, ""⟩, ⟨2, 2, 2, ""⟩])] 0).allocs =
      (getPipelineLedger (fun s _ => some s) 1 2 3 3 ⟨1, 2, 2⟩ [[9], [9], [9]]
        none 1
        [(⟨3, 8, 2, 0, 2⟩, fun _ => ShardFetchOutcome.body [5],
            [⟨0, 0, 0, ""⟩, ⟨1, 1, 1, ""⟩, ⟨2, 2, 2, ""⟩]),
          (⟨3, 9, 2, 0, 2⟩, fun _ => ShardFetchOutcome.body [5],
            [⟨0, 0, 0, ""⟩, ⟨1, 1, 1, ""⟩, ⟨2, 2, 2, ""⟩])] 0).puts :=
  C3_buffer_balance_amended (fun s _ => some s) 1 ⟨3, 8, 2, 0, 2⟩ 2 3 3
    ⟨1, 2, 2⟩ [[9], [9], [9]] (fun _ => ShardFetchOutcome.body [5])
    [⟨0, 0, 0, ""⟩, ⟨1, 1, 1, ""⟩, ⟨2, 2, 2, ""⟩] none 1
    [(⟨3, 8, 2, 0, 2⟩, fun _ => ShardFetchOutcome.body [5],
        [⟨0, 0, 0, ""⟩, ⟨1, 1, 1, ""⟩, ⟨2, 2, 2, ""⟩]),
      (⟨3, 9, 2, 0, 2⟩, fun _ => ShardFetchOutcome.body [5],
        [⟨0, 0, 0, ""⟩, ⟨1, 1, 1, ""⟩, ⟨2, 2, 2, ""⟩])] 0 (Or.inl rfl)

end Blobstore

section Scratch

open Blobstore

example :
    genLocationBlobs ⟨1, 10, 4, [⟨100, 7, 3⟩]⟩ 10 0 =
      Except.ok [⟨7, 100, 4, 0, 4⟩, ⟨7, 101, 4, 0, 4⟩, ⟨7, 102, 2, 0, 2⟩] := by rfl

example :
    genLocationBlobs ⟨1, 10, 4, [⟨100, 7, 3⟩]⟩ 5 3 =
      Except.ok [⟨7, 100, 4, 3, 1⟩, ⟨7, 101, 4, 0, 4⟩] := by rfl

example : (genLocationBlobs ⟨1, 10, 4, [⟨100, 7, 3⟩]⟩ 11 0).isOk = false := by rfl

example : (genLocationBlobs ⟨1, 10, 0, [⟨100, 7, 3⟩]⟩ 1 0).isOk = false := by rfl

example : (genLocationBlobs ⟨1, 10, 4, [⟨100, 7, 2⟩]⟩ 10 0).isOk = false := by rfl

example : genLocationBlobs ⟨1, 10, 4, [⟨100, 7, 3⟩]⟩ 0 2 = Except.ok [] := by rfl

example : emptyDataShardIndexes ⟨2, 1, 4⟩ = [1] := by rfl

example : emptyDataShardIndexes ⟨2, 3, 4⟩ = [] := by rfl

-- all data shards arrive first: trivial success, third arrival drained
example :
    (readOneBlobM (fun s _ => some s) 1 ⟨3, 8, 2, 0, 2⟩ 2 3 3 ⟨1, 2, 2⟩
      [[9], [9], [9]] (fun _ => ShardFetchOutcome.body [5])
      [⟨0, 0, 0, ""⟩, ⟨1, 1, 1, ""⟩, ⟨2, 2, 2, ""⟩]).result =
    Except.ok [[5], [5], [9]] := by rfl

example :
    (readOneBlobM (fun s _ => some s) 1 ⟨3, 8, 2, 0, 2⟩ 2 3 3 ⟨1, 2, 2⟩
      [[9], [9], [9]] (fun _ => ShardFetchOutcome.body [5])
      [⟨0, 0, 0, ""⟩, ⟨1, 1, 1, ""⟩, ⟨2, 2, 2, ""⟩]).allocs = 3 := by rfl

example :
    (readOneBlobM (fun s _ => some s) 1 ⟨3, 8, 2, 0, 2⟩ 2 3 3 ⟨1, 2, 2⟩
      [[9], [9], [9]] (fun _ => ShardFetchOutcome.body [5])
      [⟨0, 0, 0, ""⟩, ⟨1, 1, 1, ""⟩, ⟨2, 2, 2, ""⟩]).puts = 3 := by rfl

-- a data shard fails, parity arrives, reconstruction runs
example :
    (readOneBlobM (fun s _ => some (s.map (fun b => b.map (fun x => x + 1)))) 1
      ⟨3, 8, 2, 0, 2⟩ 2 3 3 ⟨1, 2, 2⟩
      [[9], [9], [9]]
      (fun i => if i = 1 then ShardFetchOutcome.transportErr else ShardFetchOutcome.body [5])
      [⟨0, 0, 0, ""⟩, ⟨1, 1, 1, ""⟩, ⟨2, 2, 2, ""⟩]).result =
    Except.ok [[6], [10], [6]] := by rfl

-- two failures with M = 1: broken blob, no reconstruction attempt
example :
    (readOneBlobM (fun s _ => some s) 1 ⟨3, 8, 2, 0, 2⟩ 2 3 3 ⟨1, 2, 2⟩
      [[9], [9], [9]]
      (fun i => if i = 2 then ShardFetchOutcome.body [5] else ShardFetchOutcome.transportErr)
      [⟨0, 0, 0, ""⟩, ⟨1, 1, 1, ""⟩, ⟨2, 2, 2, ""⟩]).result =
    Except.error (GetErr.brokenBlob 1 3 8) := by rfl

example :
    (readOneBlobM (fun s _ => some s) 1 ⟨3, 8, 2, 0, 2⟩ 2 3 3 ⟨1, 2, 2⟩
      [[9], [9], [9]]
      (fun i => if i = 2 then ShardFetchOutcome.body [5] else ShardFetchOutcome.transportErr)
      [⟨0, 0, 0, ""⟩, ⟨1, 1, 1, ""⟩, ⟨2, 2, 2, ""⟩]).reconCalls = 0 := by rfl

-- empty data index 1 (sizes ⟨2,1,4⟩, dataN = 2): zero-filled, not requested
example :
    (readOneBlobM (fun s _ => some s) 1 ⟨3, 8, 1, 0, 1⟩ 2 3 3 ⟨2, 1, 4⟩
      [[9, 9], [9, 9], [9, 9]] (fun _ => ShardFetchOutcome.body [5, 5])
      [⟨0, 0, 0, ""⟩, ⟨1, 1, 1, ""⟩, ⟨2, 2, 2, ""⟩]).result =
    Except.ok [[5, 5], [0, 0], [9, 9]] := by rfl

example :
    (readOneBlobM (fun s _ => some s) 1 ⟨3, 8, 1, 0, 1⟩ 2 3 3 ⟨2, 1, 4⟩
      [[9, 9], [9, 9], [9, 9]] (fun _ => ShardFetchOutcome.body [5, 5])
      [⟨0, 0, 0, ""⟩, ⟨1, 1, 1, ""⟩, ⟨2, 2, 2, ""⟩]).requested = [0, 2] := by rfl

example : writeShardsLoop [[1, 2], [3, 4], [5, 6]] 3 2 = [4, 5] := by rfl

-- persistent identity mismatch with an unchanged unit: three refreshes
example :
    (getOneShardFromHostM
      ⟨fun _ _ => TransportResult.err ErrCode.vuidNotFound,
        fun _ => some [⟨11, 21, "a"⟩, ⟨12, 22, "b"⟩],
        fun _ => none, fun _ => false⟩
      1 true ⟨"b", 22, 12⟩).2.1.refreshes = 3 := by rfl

-- overload short-circuits after one attempt
example :
    (getOneShardFromHostM
      ⟨fun _ _ => TransportResult.err ErrCode.overload,
        fun _ => none, fun _ => none, fun _ => false⟩
      0 true ⟨"a", 1, 1⟩).2.1.attempts = 1 := by rfl

-- retryable error exhausts all three attempts
example :
    (getOneShardFromHostM
      ⟨fun _ _ => TransportResult.err ErrCode.other,
        fun _ => none, fun _ => none, fun _ => false⟩
      0 true ⟨"a", 1, 1⟩).2.1.attempts = 3 := by rfl

-- identity mismatch with a usable new target: retarget and succeed
example :
    (getOneShardFromHostM
      ⟨fun k tgt => if k = 0 then TransportResult.err ErrCode.diskNotFound
          else if tgt.diskID = 21 then TransportResult.ok [1, 2] else TransportResult.err ErrCode.other,
        fun _ => some [⟨10, 20, "a"⟩, ⟨11, 21, "b"⟩],
        fun _ => some ⟨"hostb", "idc", false⟩, fun _ => false⟩
      1 true ⟨"b", 22, 12⟩).1 = ShardHostResult.ok [1, 2] := by rfl

-- data-shard-only reader: offset 3, shardSize 2, read 3 bytes from shards 1,2
example :
    getDataShardOnlyM (fun i so sz => some (List.replicate sz (10 * i + so))) 4 2
      ⟨1, 1, 8, 3, 3⟩ =
    ⟨Except.ok [11, 20, 20], [1, 2]⟩ := by rfl

-- any per-shard error surfaces NeedReconstruct
example :
    (getDataShardOnlyM (fun i _ _ => if i = 2 then none else some [0, 0]) 4 2
      ⟨1, 1, 8, 3, 3⟩).result = Except.error GetErr.needReconstruct := by rfl

-- writer failure with one completed undelivered blob leaks N+M buffers
example :
    (getPipelineLedger (fun s _ => some s) 1 2 3 3 ⟨1, 2, 2⟩ [[9], [9], [9]]
      (some 0) 1
      [(⟨3, 8, 2, 0, 2⟩, fun _ => ShardFetchOutcome.body [5],
          [⟨0, 0, 0, ""⟩, ⟨1, 1, 1, ""⟩, ⟨2, 2, 2, ""⟩]),
        (⟨3, 9, 2, 0, 2⟩, fun _ => ShardFetchOutcome.body [5],
          [⟨0, 0, 0, ""⟩, ⟨1, 1, 1, ""⟩, ⟨2, 2, 2, ""⟩])] 0).allocs = 12 := by rfl

example :
    (getPipelineLedger (fun s _ => some s) 1 2 3 3 ⟨1, 2, 2⟩ [[9], [9], [9]]
      (some 0) 1
      [(⟨3, 8, 2, 0, 2⟩, fun _ => ShardFetchOutcome.body [5],
          [⟨0, 0, 0, ""⟩, ⟨1, 1, 1, ""⟩, ⟨2, 2, 2, ""⟩]),
        (⟨3, 9, 2, 0, 2⟩, fun _ => ShardFetchOutcome.body [5],
          [⟨0, 0, 0, ""⟩, ⟨1, 1, 1, ""⟩, ⟨2, 2, 2, ""⟩])] 0).puts = 9 := by rfl

end Scratch
